import Mathlib

/-!
# Verification of the requestr HTTP toolkit against its specification

This file gives a shallow embedding, in Lean 4, of the pure core of the
`requestr` byte-level HTTP toolkit (request assembly, response parsing,
pipelined response framing, HPACK codec, HTTP/2 framing, byte encoder),
translated from the TypeScript sources, together with theorems settling the
frozen specification claims C1 to C10.

Modelling conventions:
* JS strings are modelled as Lean `String` / `List Char`; all inputs that the
  claims quantify over are ASCII, where JS UTF-16 code units, Unicode code
  points and UTF-8 bytes coincide.
* Buffers are modelled as `List Nat` with each element a byte value.
* JS numbers are modelled as `Nat`; the sources only apply bitwise and
  arithmetic operations in ranges where JS number semantics agree with `Nat`.
* JS `Map` objects are modelled as insertion-ordered association lists with
  update-in-place semantics (`mapSet`), matching `Map.prototype.set`.
* Fallible operations (JS functions that may throw) return `Option`/`Except`.
-/

set_option maxHeartbeats 1000000

/-! ## Generic JS-style string searching (String.prototype.indexOf) -/

/-- Fuel-driven scan for the first index `i ≥ start` (scanning upward) at which
`pat` occurs in `s`.  Mirrors `String.prototype.indexOf(pat, start)`. -/
def idxOfGo {α : Type} [DecidableEq α] (pat s : List α) : Nat → Nat → Option Nat
  | _, 0 => none
  | i, f + 1 => if pat.isPrefixOf (s.drop i) then some i else idxOfGo pat s (i + 1) f

/-- First occurrence of `pat` in `s` at an index `≥ start`
(`s.indexOf(pat, start)`, with `none` for JS `-1`). -/
def idxOf {α : Type} [DecidableEq α] (pat s : List α) (start : Nat) : Option Nat :=
  idxOfGo pat s start (s.length + 1 - start)

/-- `s.includes(pat)` / `indexOf(pat) !== -1`. -/
def hasSubstr {α : Type} [DecidableEq α] (pat s : List α) : Bool :=
  (idxOf pat s 0).isSome

/-! ## Request assembly model (`src/builder.ts`, class `RequestBuilder`)

A header entry is either a structured `{name, value}` pair or a raw line
(`rawHeader` / `malformedHeader` push `{name: "", value: "", raw}`); the raw
string replaces formatting entirely. -/

inductive HeaderEntry : Type
  | structured (name value : String)
  | raw (line : String)
deriving DecidableEq, Repr

/-- The accumulated builder state (the private fields of `RequestBuilder`),
with the source's defaults. -/
structure RequestPlan where
  method : String := "GET"
  path : String := "/"
  host : String := ""
  port : Nat := 80
  scheme : String := "http"
  httpVersion : String := "1.1"
  headers : List HeaderEntry := []
  body : String := ""
  lineEnding : String := "\r\n"
  requestLineSeparator : String := " "
deriving DecidableEq, Repr

/-- One output line per header entry: raw entries verbatim
(`header.raw !== undefined` branch of `build`), structured ones as
`name: value`. -/
def headerLine : HeaderEntry → String
  | .structured n v => n ++ (": ") ++ v
  | .raw r => r

/-- `RequestBuilder.build()`: request line, then header lines, then a pushed
empty string, joined with the line ending; the body is appended afterwards
when truthy (non-empty). -/
def RequestBuilder.build (p : RequestPlan) : String :=
  let requestLine :=
    p.method ++ p.requestLineSeparator ++ p.path ++ p.requestLineSeparator ++
      ("HTTP/") ++ p.httpVersion
  let lines := requestLine :: (p.headers.map headerLine ++ [("")])
  let request := String.intercalate p.lineEnding lines
  if p.body = ("") then request else request ++ p.body

/-- The malformation kinds of `MalformationType` (`src/types.ts`). -/
inductive MalformationType : Type
  | spaceBeforeColon
  | spaceAfterColon
  | tabSeparator
  | noSpaceAfterColon
  | doubleSpace
  | crlfInjection
  | lfOnly
  | crOnly
  | nullByte
  | oversizedHeader
  | emptyHeaderName
  | emptyHeaderValue
deriving DecidableEq, Repr

/-- The raw line computed by the `switch` in `RequestBuilder.malformedHeader`
(kinds `lf-only` and `cr-only` fall through to the `default` arm). -/
def malformedRaw (name value : String) : MalformationType → String
  | .spaceBeforeColon => name ++ (" : ") ++ value
  | .spaceAfterColon => name ++ (":  ") ++ value
  | .tabSeparator => name ++ (":\t") ++ value
  | .noSpaceAfterColon => name ++ (":") ++ value
  | .doubleSpace => name ++ (":  ") ++ value
  | .crlfInjection => name ++ (": ") ++ value ++ ("\r\nInjected: header")
  | .nullByte => name ++ (": ") ++ value ++ ("\x00injected")
  | .oversizedHeader => name ++ (": ") ++ String.mk (List.replicate 8192 'A') ++ value
  | .emptyHeaderName => (": ") ++ value
  | .emptyHeaderValue => name ++ (": ")
  | _ => name ++ (": ") ++ value

/-- `RequestBuilder.malformedHeader(name, value, type)` appends the computed
raw line as a raw entry. -/
def RequestBuilder.malformedHeader (p : RequestPlan) (name value : String)
    (t : MalformationType) : RequestPlan :=
  { p with headers := p.headers ++ [.raw (malformedRaw name value t)] }

/-- `RequestBuilder.header(name, value)` appends a structured entry. -/
def RequestBuilder.header (p : RequestPlan) (name value : String) : RequestPlan :=
  { p with headers := p.headers ++ [.structured name value] }

/-- `RequestBuilder.rawHeader(rawLine)` appends a raw entry. -/
def RequestBuilder.rawHeader (p : RequestPlan) (line : String) : RequestPlan :=
  { p with headers := p.headers ++ [.raw line] }

/-! ## C1: bytes emitted by `build()` -/

/-- The plan `new RequestBuilder().method("GET").path("/")
.header("Host", "example.com").body("Hello")` with all defaults. -/
def c1Plan : RequestPlan :=
  { headers := [.structured ("Host") ("example.com")], body := ("Hello") }

/-- C1 (code bug): the claim says that with the default CRLF policy and a
non-empty body, `build()` emits a blank line (two consecutive CRLF) between
the last header line and the body.  The code pushes a single empty string and
`join`s, so only one CRLF separates the last header line from the body: for
the request `GET / HTTP/1.1` with header `Host: example.com` and body `Hello`
the emitted string is `GET / HTTP/1.1\r\nHost: example.com\r\nHello`, which
contains no `\r\n\r\n` at all. -/
theorem c1_build_missing_blank_line :
    RequestBuilder.build c1Plan =
      ("GET / HTTP/1.1\r\nHost: example.com\r\nHello") ∧
    hasSubstr (("\r\n\r\n").data) ((RequestBuilder.build c1Plan).data) = false := by
  constructor
  · rfl
  · decide

/-! ## C7: the malformation helper's raw lines -/

/-- C7: for every header name and value, `malformedHeader` appends exactly the
raw line prescribed for each recognized malformation kind: space-before-colon,
tab-separator, no-space-after-colon, double-space, crlf-injection, null-byte,
oversized-header (8192 `A`s), empty-header-name, and empty-header-value. -/
theorem c7_malformed_header_kinds (name value : String) (p : RequestPlan) :
    malformedRaw name value .spaceBeforeColon = name ++ (" : ") ++ value ∧
    malformedRaw name value .tabSeparator = name ++ (":\t") ++ value ∧
    malformedRaw name value .noSpaceAfterColon = name ++ (":") ++ value ∧
    malformedRaw name value .doubleSpace = name ++ (":  ") ++ value ∧
    malformedRaw name value .crlfInjection =
      name ++ (": ") ++ value ++ ("\r\nInjected: header") ∧
    malformedRaw name value .nullByte = name ++ (": ") ++ value ++ ("\x00injected") ∧
    malformedRaw name value .oversizedHeader =
      name ++ (": ") ++ String.mk (List.replicate 8192 'A') ++ value ∧
    malformedRaw name value .emptyHeaderName = (": ") ++ value ∧
    malformedRaw name value .emptyHeaderValue = name ++ (": ") ∧
    ∀ t, RequestBuilder.malformedHeader p name value t =
      { p with headers := p.headers ++ [.raw (malformedRaw name value t)] } := by
  refine ⟨rfl, rfl, rfl, rfl, rfl, rfl, rfl, rfl, rfl, fun t => rfl⟩

/-! ## Byte encoder (`src/encoder.ts`, class `Encoder`) -/

/-- `String.prototype.repeat`: `n` concatenated copies. -/
def jsRepeat (s : String) : Nat → String
  | 0 => ("")
  | n + 1 => s ++ jsRepeat s n

/-- The first UTF-16 code unit of a code point (`str.charCodeAt(0)` applied to
a single code point, e.g. after `Array.from` / `for..of` iteration). -/
def jsCharCode (c : Char) : Nat :=
  if c.toNat < 0x10000 then c.toNat
  else 0xD800 + ((c.toNat - 0x10000) / 0x400)

/-- Left-pad a digit string with `'0'` to width `k` (`padStart(k, "0")`). -/
def padZeros (k : Nat) (l : List Char) : List Char :=
  List.replicate (k - l.length) '0' ++ l

/-- `n.toString(16)` (lowercase hex digits, most significant first). -/
def hexLower (n : Nat) : List Char := Nat.toDigits 16 n

/-- `n.toString(16).toUpperCase()`. -/
def hexUpper (n : Nat) : List Char := (Nat.toDigits 16 n).map Char.toUpper

/-- UTF-8 encoding of one Unicode scalar value (what `Buffer.from(str, "utf-8")`
emits per code point). -/
def utf8EncodeChar (c : Char) : List Nat :=
  let n := c.toNat
  if n < 0x80 then [n]
  else if n < 0x800 then [0xC0 ||| (n >>> 6), 0x80 ||| (n &&& 0x3F)]
  else if n < 0x10000 then
    [0xE0 ||| (n >>> 12), 0x80 ||| ((n >>> 6) &&& 0x3F), 0x80 ||| (n &&& 0x3F)]
  else
    [0xF0 ||| (n >>> 18), 0x80 ||| ((n >>> 12) &&& 0x3F),
      0x80 ||| ((n >>> 6) &&& 0x3F), 0x80 ||| (n &&& 0x3F)]

/-- `Buffer.from(s, "utf-8")` for a Lean string (whose data are scalar values). -/
def utf8Encode (s : String) : List Nat := s.data.flatMap utf8EncodeChar

/-- Is a byte a UTF-8 continuation byte `10xxxxxx`? -/
def isCont (b : Nat) : Bool := 0x80 ≤ b ∧ b ≤ 0xBF

/-- Lenient UTF-8 decoding (`buffer.toString("utf-8")`): invalid sequences
become U+FFFD.  The replacement positioning approximates Node for invalid
input; every theorem below evaluates it only on ASCII bytes, where the two
coincide.  Each step consumes at least one byte, so fuel `l.length`
suffices. -/
def utf8DecodeGo : Nat → List Nat → List Char
  | 0, _ => []
  | _ + 1, [] => []
  | f + 1, b :: t =>
    if b < 0x80 then Char.ofNat b :: utf8DecodeGo f t
    else if 0xC2 ≤ b ∧ b ≤ 0xDF then
      match t with
      | b2 :: t2 =>
        if isCont b2 then
          Char.ofNat (((b - 0xC0) <<< 6) ||| (b2 - 0x80)) :: utf8DecodeGo f t2
        else Char.ofNat 0xFFFD :: utf8DecodeGo f (b2 :: t2)
      | [] => [Char.ofNat 0xFFFD]
    else if 0xE0 ≤ b ∧ b ≤ 0xEF then
      match t with
      | b2 :: b3 :: t3 =>
        if isCont b2 ∧ isCont b3 then
          let cp := ((b - 0xE0) <<< 12) ||| ((b2 - 0x80) <<< 6) ||| (b3 - 0x80)
          if 0x800 ≤ cp ∧ ¬ (0xD800 ≤ cp ∧ cp ≤ 0xDFFF) then
            Char.ofNat cp :: utf8DecodeGo f t3
          else Char.ofNat 0xFFFD :: utf8DecodeGo f t3
        else Char.ofNat 0xFFFD :: utf8DecodeGo f (b2 :: b3 :: t3)
      | _ => [Char.ofNat 0xFFFD]
    else if 0xF0 ≤ b ∧ b ≤ 0xF4 then
      match t with
      | b2 :: b3 :: b4 :: t4 =>
        if isCont b2 ∧ isCont b3 ∧ isCont b4 then
          let cp := ((b - 0xF0) <<< 18) ||| ((b2 - 0x80) <<< 12) |||
            ((b3 - 0x80) <<< 6) ||| (b4 - 0x80)
          if 0x10000 ≤ cp ∧ cp ≤ 0x10FFFF then Char.ofNat cp :: utf8DecodeGo f t4
          else Char.ofNat 0xFFFD :: utf8DecodeGo f t4
        else Char.ofNat 0xFFFD :: utf8DecodeGo f (b2 :: b3 :: b4 :: t4)
      | _ => [Char.ofNat 0xFFFD]
    else Char.ofNat 0xFFFD :: utf8DecodeGo f t

/-- Byte-list form of `buffer.toString("utf-8")`. -/
def utf8DecodeList (l : List Nat) : List Char := utf8DecodeGo l.length l

/-- `buffer.toString("utf-8")` as a `String`. -/
def utf8Decode (l : List Nat) : String := ⟨utf8DecodeList l⟩

/-- Characters `encodeURIComponent` leaves unescaped:
`A-Z a-z 0-9 - _ . ! ~ * ' ( )`. -/
def uriUnreserved (c : Char) : Bool :=
  c.isAlphanum || c ∈ ['-', '_', '.', '!', '~', '*', '\'', '(', ')']

/-- Two uppercase hex digits of a byte (percent-escape payload). -/
def byteHexU (b : Nat) : List Char := padZeros 2 (hexUpper b)

/-- `encodeURIComponent` on one code point. -/
def encodeURIComponentChar (c : Char) : List Char :=
  if uriUnreserved c then [c]
  else (utf8EncodeChar c).flatMap (fun b => '%' :: byteHexU b)

/-- `encodeURIComponent(s)`. -/
def encodeURIComponentL (l : List Char) : List Char :=
  l.flatMap encodeURIComponentChar

/-- The second pass of `Encoder.urlEncode`:
`.replace(/[!'()*]/g, c => "%" + c.charCodeAt(0).toString(16).toUpperCase())`. -/
def uriExtraChar (c : Char) : List Char :=
  if c ∈ ['!', '\'', '(', ')', '*'] then '%' :: hexUpper c.toNat else [c]

/-- `Encoder.urlEncode`. -/
def Encoder.urlEncode (s : String) : String :=
  ⟨(encodeURIComponentL s.data).flatMap uriExtraChar⟩

/-- `Encoder.urlEncodeAll`: every code unit percent-escaped, upper-hex,
padded to two digits. -/
def Encoder.urlEncodeAll (s : String) : String :=
  ⟨s.data.flatMap (fun c => '%' :: padZeros 2 (hexUpper (jsCharCode c)))⟩

/-- `Encoder.unicodeEncode`: `\uXXXX` per code unit (lowercase hex). -/
def Encoder.unicodeEncode (s : String) : String :=
  ⟨s.data.flatMap (fun c => '\\' :: 'u' :: padZeros 4 (hexLower (jsCharCode c)))⟩

/-- `Encoder.hexEncode`: `\xXX` per code unit (lowercase hex). -/
def Encoder.hexEncode (s : String) : String :=
  ⟨s.data.flatMap (fun c => '\\' :: 'x' :: padZeros 2 (hexLower (jsCharCode c)))⟩

/-- `Encoder.octalEncode`: `\OOO` per code unit (3-digit octal). -/
def Encoder.octalEncode (s : String) : String :=
  ⟨s.data.flatMap (fun c => '\\' :: padZeros 3 (Nat.toDigits 8 (jsCharCode c)))⟩

/-- `Encoder.htmlEntityEncode` with the default `useHex = true`: `&#xHH;`. -/
def Encoder.htmlEntityEncode (s : String) : String :=
  ⟨s.data.flatMap (fun c => ("&#x").data ++ hexLower (jsCharCode c) ++ [';'])⟩

/-- The RFC 4648 base64 alphabet. -/
def b64Alphabet : List Char :=
  ("ABCDEFGHIJKLMNOPQRSTUVWXYZabcdefghijklmnopqrstuvwxyz0123456789+/").data

/-- Base64 digit for a 6-bit value. -/
def b64Char (n : Nat) : Char := b64Alphabet.getD n 'A'

/-- Standard base64 encoding with padding (`buffer.toString("base64")`). -/
def b64EncodeGo : List Nat → List Char
  | [] => []
  | [a] => [b64Char (a >>> 2), b64Char ((a &&& 3) <<< 4), '=', '=']
  | [a, b] =>
    [b64Char (a >>> 2), b64Char (((a &&& 3) <<< 4) ||| (b >>> 4)),
      b64Char ((b &&& 15) <<< 2), '=']
  | a :: b :: c :: t =>
    [b64Char (a >>> 2), b64Char (((a &&& 3) <<< 4) ||| (b >>> 4)),
      b64Char (((b &&& 15) <<< 2) ||| (c >>> 6)), b64Char (c &&& 63)] ++
      b64EncodeGo t

/-- `Buffer.from(s).toString("base64")`. -/
def base64Encode (s : String) : String := ⟨b64EncodeGo (utf8Encode s)⟩

/-- 6-bit value of a base64 digit, `none` for characters outside the
alphabet (Node ignores such characters when decoding). -/
def b64Val (c : Char) : Option Nat :=
  if 'A' ≤ c ∧ c ≤ 'Z' then some (c.toNat - 65)
  else if 'a' ≤ c ∧ c ≤ 'z' then some (c.toNat - 71)
  else if '0' ≤ c ∧ c ≤ '9' then some (c.toNat + 4)
  else if c = '+' then some 62
  else if c = '/' then some 63
  else none

/-- Reassemble bytes from 6-bit groups (trailing 1-group remainders dropped,
as Node does). -/
def b64DecodeGo : List Nat → List Nat
  | a :: b :: c :: d :: t =>
    [((a <<< 2) ||| (b >>> 4)) &&& 255, (((b &&& 15) <<< 4) ||| (c >>> 2)) &&& 255,
      (((c &&& 3) <<< 6) ||| d) &&& 255] ++ b64DecodeGo t
  | [a, b] => [((a <<< 2) ||| (b >>> 4)) &&& 255]
  | [a, b, c] =>
    [((a <<< 2) ||| (b >>> 4)) &&& 255, (((b &&& 15) <<< 4) ||| (c >>> 2)) &&& 255]
  | _ => []

/-- `Buffer.from(s, "base64")`. -/
def base64DecodeBytes (s : String) : List Nat :=
  b64DecodeGo (s.data.filterMap b64Val)

/-- Hex digit value, both cases (`[0-9a-fA-F]`). -/
def hexVal (c : Char) : Option Nat :=
  if '0' ≤ c ∧ c ≤ '9' then some (c.toNat - 48)
  else if 'a' ≤ c ∧ c ≤ 'f' then some (c.toNat - 87)
  else if 'A' ≤ c ∧ c ≤ 'F' then some (c.toNat - 55)
  else none

/-- Strict UTF-8 decoding used by `decodeURIComponent` (malformed → throw). -/
def utf8DecodeStrict : List Nat → Option (List Char)
  | [] => some []
  | b :: t =>
    if b < 0x80 then (utf8DecodeStrict t).map (Char.ofNat b :: ·)
    else if 0xC2 ≤ b ∧ b ≤ 0xDF then
      match t with
      | b2 :: t2 =>
        if isCont b2 then
          (utf8DecodeStrict t2).map (Char.ofNat (((b - 0xC0) <<< 6) ||| (b2 - 0x80)) :: ·)
        else none
      | [] => none
    else if 0xE0 ≤ b ∧ b ≤ 0xEF then
      match t with
      | b2 :: b3 :: t3 =>
        if isCont b2 ∧ isCont b3 then
          let cp := ((b - 0xE0) <<< 12) ||| ((b2 - 0x80) <<< 6) ||| (b3 - 0x80)
          if 0x800 ≤ cp ∧ ¬ (0xD800 ≤ cp ∧ cp ≤ 0xDFFF) then
            (utf8DecodeStrict t3).map (Char.ofNat cp :: ·)
          else none
        else none
      | _ => none
    else if 0xF0 ≤ b ∧ b ≤ 0xF4 then
      match t with
      | b2 :: b3 :: b4 :: t4 =>
        if isCont b2 ∧ isCont b3 ∧ isCont b4 then
          let cp := ((b - 0xF0) <<< 18) ||| ((b2 - 0x80) <<< 12) |||
            ((b3 - 0x80) <<< 6) ||| (b4 - 0x80)
          if 0x10000 ≤ cp ∧ cp ≤ 0x10FFFF then
            (utf8DecodeStrict t4).map (Char.ofNat cp :: ·)
          else none
        else none
      | _ => none
    else none

/-- Percent-escape scanning for `decodeURIComponent`: literal characters and
decoded escape bytes. -/
def pctScan : List Char → Except String (List (Sum Char Nat))
  | [] => .ok []
  | '%' :: h1 :: h2 :: t =>
    match hexVal h1, hexVal h2 with
    | some a, some b => (pctScan t).map (fun r => .inr (16 * a + b) :: r)
    | _, _ => .error ("URI malformed")
  | '%' :: _ => .error ("URI malformed")
  | c :: t => (pctScan t).map (fun r => .inl c :: r)

/-- Whether a scan item is a decoded escape byte. -/
def isEscByte : Sum Char Nat → Bool
  | .inr _ => true
  | .inl _ => false

/-- Byte carried by a scan item (0 for literals, which never occur where this
is applied). -/
def escByte : Sum Char Nat → Nat
  | .inr b => b
  | .inl _ => 0

/-- Stitch scan items back into a string: maximal runs of escape bytes are
strictly UTF-8 decoded (throwing on malformed sequences), literal characters
pass through. -/
def pctStitch : List (Sum Char Nat) → Except String (List Char)
  | [] => .ok []
  | .inl c :: t => (pctStitch t).map (fun r => c :: r)
  | .inr b :: t =>
    let run := b :: (t.takeWhile isEscByte).map escByte
    match utf8DecodeStrict run with
    | some cs => (pctStitch (t.dropWhile isEscByte)).map (fun r => cs ++ r)
    | none => .error ("URI malformed")
termination_by l => l.length
decreasing_by
  · simp
  · have h := (List.dropWhile_sublist (l := t) isEscByte).length_le
    simp only [List.length_cons]
    omega

/-- `decodeURIComponent(s)` (throws modelled as `Except.error`). -/
def decodeURIComponentImpl (s : String) : Except String String :=
  (pctScan s.data).bind (fun items => (pctStitch items).map (fun l => ⟨l⟩))

/-- `String.fromCharCode` of one code: truncated to 16 bits; codes that are
not valid scalar values (surrogates) are outside the Lean `Char` type and
map to `'\0'` via `Char.ofNat`. -/
def jsFromCharCode (n : Nat) : Char := Char.ofNat (n % 0x10000)

/-- One global-replace pass of `/&#x([0-9a-fA-F]+);/g` (hex entities). -/
def entHexPass : List Char → List Char
  | '&' :: '#' :: 'x' :: t =>
    let digits := t.takeWhile (fun c => (hexVal c).isSome)
    let rest := t.drop digits.length
    if h : digits ≠ [] ∧ rest.headD ' ' = ';' ∧ rest ≠ [] then
      jsFromCharCode (digits.foldl (fun n c => 16 * n + ((hexVal c).getD 0)) 0) ::
        entHexPass (rest.drop 1)
    else '&' :: entHexPass ('#' :: 'x' :: t)
  | c :: t => c :: entHexPass t
  | [] => []
termination_by l => l.length
decreasing_by
  · simp only [List.length_cons, List.length_drop]
    omega
  · simp
  · simp

/-- One global-replace pass of `/&#(\d+);/g` (decimal entities). -/
def entDecPass : List Char → List Char
  | '&' :: '#' :: t =>
    let digits := t.takeWhile Char.isDigit
    let rest := t.drop digits.length
    if h : digits ≠ [] ∧ rest.headD ' ' = ';' ∧ rest ≠ [] then
      jsFromCharCode (digits.foldl (fun n c => 10 * n + (c.toNat - 48)) 0) ::
        entDecPass (rest.drop 1)
    else '&' :: entDecPass ('#' :: t)
  | c :: t => c :: entDecPass t
  | [] => []
termination_by l => l.length
decreasing_by
  · simp only [List.length_cons, List.length_drop]
    omega
  · simp
  · simp

/-- `Encoder.htmlEntityDecode`: the hex-entity replace followed by the
decimal-entity replace. -/
def Encoder.htmlEntityDecode (s : String) : String :=
  ⟨entDecPass (entHexPass s.data)⟩

/-- `Encoder.overlongUtf8Encode`: ASCII code units become the 2-byte overlong
sequence; other code units are pushed as numbers (truncated to bytes by
`Buffer.from`); the byte array is read back with `toString("binary")`
(latin1: one char per byte). -/
def Encoder.overlongUtf8Encode (s : String) : String :=
  ⟨s.data.flatMap (fun c =>
    let code := jsCharCode c
    if code < 128 then
      [Char.ofNat (0xC0 ||| (code >>> 6)), Char.ofNat (0x80 ||| (code &&& 0x3F))]
    else [Char.ofNat (code % 256)])⟩

/-- The encoding kinds of `EncodingType` (`src/types.ts`). -/
inductive EncodingType : Type
  | url
  | doubleUrl
  | unicode
  | hex
  | octal
  | htmlEntity
  | base64
  | overlongUtf8
deriving DecidableEq, Repr

/-- `Encoder.encode(str, type)`. -/
def Encoder.encode (s : String) : EncodingType → String
  | .url => Encoder.urlEncode s
  | .doubleUrl => Encoder.urlEncode (Encoder.urlEncode s)
  | .unicode => Encoder.unicodeEncode s
  | .hex => Encoder.hexEncode s
  | .octal => Encoder.octalEncode s
  | .htmlEntity => Encoder.htmlEntityEncode s
  | .base64 => base64Encode s
  | .overlongUtf8 => Encoder.overlongUtf8Encode s

/-- `Encoder.decode(str, type)`: only `url`, `double-url`, `base64` and
`html-entity` are implemented; every other kind falls through the `switch`
default and returns the input unchanged.  `decodeURIComponent` may throw,
modelled by `Except.error`. -/
def Encoder.decode (s : String) : EncodingType → Except String String
  | .url => decodeURIComponentImpl s
  | .doubleUrl => (decodeURIComponentImpl s).bind decodeURIComponentImpl
  | .base64 => .ok (utf8Decode (base64DecodeBytes s))
  | .htmlEntity => .ok (Encoder.htmlEntityDecode s)
  | _ => .ok s

/-- Scanner for global literal replacement with nonempty pattern `p :: ps`:
at each position, if the pattern matches, emit the replacement and skip the
match, else keep the character and move on (`String.prototype.replace` with a
global literal regex). -/
def replaceAllGo (p : Char) (ps rep : List Char) : Nat → List Char → List Char
  | _, [] => []
  | 0, s => s
  | f + 1, c :: t =>
    if (p :: ps).isPrefixOf (c :: t) then
      rep ++ replaceAllGo p ps rep f (t.drop ps.length)
    else c :: replaceAllGo p ps rep f t

/-- `s.replace(/pat/g, rep)` for a literal pattern (all patterns in the
source are nonempty; an empty pattern is treated as the identity).  The scan
consumes at least one character per step, so fuel `s.length` is exact. -/
def jsReplaceAll (pat rep s : String) : String :=
  match pat.data with
  | [] => s
  | p :: ps => ⟨replaceAllGo p ps rep.data s.data.length s.data⟩

/-- `Encoder.pathTraversalVariants(depth)` (`src/encoder.ts`). -/
def Encoder.pathTraversalVariants (depth : Nat) : List String :=
  let base := jsRepeat ("../") depth
  [ base,
    jsRepeat ("..\\") depth,
    Encoder.urlEncode base,
    Encoder.urlEncode (Encoder.urlEncode base),
    jsReplaceAll ("..") ("..%00") base,
    jsReplaceAll ("..") ("..%2500") base,
    jsReplaceAll ("/") ("%2f") base,
    jsReplaceAll ("/") ("%252f") base,
    jsRepeat ("....//") depth,
    jsRepeat ("..;/") depth,
    jsRepeat ("..\\/") depth,
    jsRepeat ("..%c0%af") depth,
    jsRepeat ("..%c1%9c") depth ]

/-! ## C10: `decode` is the identity for the unimplemented kinds -/

/-- C10: `Encoder.decode(s, kind)` returns `s` unchanged for the kinds
`unicode`, `hex`, `octal` and `overlong-utf8` (only `url`, `double-url`,
`base64` and `html-entity` have decoding implemented), so for those four
kinds `decode(encode(s, kind), kind)` equals `encode(s, kind)` rather than
`s` whenever encoding changes the string. -/
theorem c10_decode_identity_kinds (s : String) :
    Encoder.decode s .unicode = .ok s ∧
    Encoder.decode s .hex = .ok s ∧
    Encoder.decode s .octal = .ok s ∧
    Encoder.decode s .overlongUtf8 = .ok s ∧
    Encoder.decode (Encoder.encode s .unicode) .unicode =
      .ok (Encoder.encode s .unicode) ∧
    Encoder.decode (Encoder.encode s .hex) .hex = .ok (Encoder.encode s .hex) ∧
    Encoder.decode (Encoder.encode s .octal) .octal =
      .ok (Encoder.encode s .octal) ∧
    Encoder.decode (Encoder.encode s .overlongUtf8) .overlongUtf8 =
      .ok (Encoder.encode s .overlongUtf8) :=
  ⟨rfl, rfl, rfl, rfl, rfl, rfl, rfl, rfl⟩

/-! ## C8: the path traversal variant list -/

/-- `replaceAllGo` ignores fuel on the empty list. -/
theorem replaceAllGo_nil (p : Char) (ps rep : List Char) (f : Nat) :
    replaceAllGo p ps rep f [] = [] := by
  cases f <;> rfl

/-- Fuel irrelevance: any fuel at least the input length gives the same
result. -/
theorem replaceAllGo_fuel (p : Char) (ps rep : List Char) :
    ∀ f g s, s.length ≤ f → s.length ≤ g →
      replaceAllGo p ps rep f s = replaceAllGo p ps rep g s := by
  intro f
  induction f with
  | zero =>
    intro g s hf _
    have hs : s = [] := List.length_eq_zero.mp (Nat.le_zero.mp hf)
    subst hs
    simp [replaceAllGo_nil]
  | succ n ih =>
    intro g s hf hg
    cases s with
    | nil => simp [replaceAllGo_nil]
    | cons c t =>
      cases g with
      | zero =>
        simp only [List.length_cons] at hg
        omega
      | succ g' =>
        simp only [List.length_cons] at hf hg
        rw [replaceAllGo, replaceAllGo]
        split
        · have hl : (t.drop ps.length).length ≤ t.length := by
            simp [List.length_drop]
          rw [ih g' (t.drop ps.length) (by omega) (by omega)]
        · rw [ih g' t (by omega) (by omega)]

/-- `urlEncode` distributes over string append (it is a per-character
expansion). -/
theorem urlEncode_append (s t : String) :
    Encoder.urlEncode (s ++ t) = Encoder.urlEncode s ++ Encoder.urlEncode t := by
  show (⟨_⟩ : String) = ⟨_⟩
  simp [Encoder.urlEncode, encodeURIComponentL, String.data_append]

/-- `urlEncode` maps each unit `../` of the base to `..%2F`. -/
theorem urlEncode_dotdotslash (d : Nat) :
    Encoder.urlEncode (jsRepeat ("../") d) = jsRepeat ("..%2F") d := by
  induction d with
  | zero => rfl
  | succ n ih =>
    show Encoder.urlEncode (("../") ++ jsRepeat ("../") n) =
      ("..%2F") ++ jsRepeat ("..%2F") n
    rw [urlEncode_append, ih]
    rfl

/-- Double url-encoding of the base gives `..%252F` per unit. -/
theorem urlEncode_twice_dotdotslash (d : Nat) :
    Encoder.urlEncode (Encoder.urlEncode (jsRepeat ("../") d)) =
      jsRepeat ("..%252F") d := by
  rw [urlEncode_dotdotslash]
  induction d with
  | zero => rfl
  | succ n ih =>
    show Encoder.urlEncode (("..%2F") ++ jsRepeat ("..%2F") n) =
      ("..%252F") ++ jsRepeat ("..%252F") n
    rw [urlEncode_append, ih]
    rfl

/-- `replace(/\.\./g, rep)` on the base yields `rep ++ "/"` per unit. -/
theorem replaceAll_dots (rep : String) (d : Nat) :
    jsReplaceAll (("..")) rep (jsRepeat ("../") d) = jsRepeat (rep ++ ("/")) d := by
  induction d with
  | zero => rfl
  | succ n ih =>
    have hdata : (jsRepeat ("../") (n + 1)).data =
        '.' :: '.' :: '/' :: (jsRepeat ("../") n).data := by
      show (("../") ++ jsRepeat ("../") n).data = _
      simp [String.data_append]
    show (⟨replaceAllGo '.' (['.']) rep.data (jsRepeat ("../") (n + 1)).data.length
      (jsRepeat ("../") (n + 1)).data⟩ : String) = _
    rw [hdata]
    simp only [List.length_cons]
    rw [replaceAllGo]
    rw [if_pos (by simp [List.isPrefixOf])]
    simp only [List.length_singleton, List.drop_succ_cons, List.drop_zero]
    rw [replaceAllGo]
    rw [if_neg (by simp [List.isPrefixOf])]
    rw [replaceAllGo_fuel '.' (['.']) rep.data ((jsRepeat ("../") n).data.length + 1)
      ((jsRepeat ("../") n).data.length) _ (by omega) (by omega)]
    have ihd : replaceAllGo '.' (['.']) rep.data (jsRepeat ("../") n).data.length
        (jsRepeat ("../") n).data = (jsRepeat (rep ++ ("/")) n).data := by
      have := congrArg String.data ih
      exact this
    rw [ihd]
    show String.mk (rep.data ++ '/' :: (jsRepeat (rep ++ ("/")) n).data) =
      (rep ++ ("/")) ++ jsRepeat (rep ++ ("/")) n
    have : ((rep ++ ("/")) ++ jsRepeat (rep ++ ("/")) n).data =
        rep.data ++ '/' :: (jsRepeat (rep ++ ("/")) n).data := by
      simp [String.data_append]
    exact congrArg String.mk this.symm

/-- `replace(/\//g, rep)` on the base yields `".." ++ rep` per unit. -/
theorem replaceAll_slash (rep : String) (d : Nat) :
    jsReplaceAll (("/")) rep (jsRepeat ("../") d) = jsRepeat (("..") ++ rep) d := by
  induction d with
  | zero => rfl
  | succ n ih =>
    have hdata : (jsRepeat ("../") (n + 1)).data =
        '.' :: '.' :: '/' :: (jsRepeat ("../") n).data := by
      show (("../") ++ jsRepeat ("../") n).data = _
      simp [String.data_append]
    show (⟨replaceAllGo '/' ([]) rep.data (jsRepeat ("../") (n + 1)).data.length
      (jsRepeat ("../") (n + 1)).data⟩ : String) = _
    rw [hdata]
    simp only [List.length_cons]
    rw [replaceAllGo]
    rw [if_neg (by simp [List.isPrefixOf])]
    rw [replaceAllGo]
    rw [if_neg (by simp [List.isPrefixOf])]
    rw [replaceAllGo]
    rw [if_pos (by simp [List.isPrefixOf])]
    simp only [List.length_nil, List.drop_zero]
    have ihd : replaceAllGo '/' ([]) rep.data (jsRepeat ("../") n).data.length
        (jsRepeat ("../") n).data = (jsRepeat (("..") ++ rep) n).data :=
      congrArg String.data ih
    rw [ihd]
    have : ((("..") ++ rep) ++ jsRepeat (("..") ++ rep) n).data =
        '.' :: '.' :: (rep.data ++ (jsRepeat (("..") ++ rep) n).data) := by
      simp [String.data_append]
    exact congrArg String.mk this.symm

/-- C8: for every depth `d ≥ 1`, `pathTraversalVariants(d)` is exactly the
13-element list, in order: the base `"../"×d`; `"..\\"×d`; the url-encoding
of the base; the double url-encoding; `..`→`..%00`, `..`→`..%2500`,
`/`→`%2f` and `/`→`%252f` replacements on the base; then `"....//"×d`,
`"..;/"×d`, `"..\\/"×d`, `"..%c0%af"×d` and `"..%c1%9c"×d`; with the encoded
and replaced entries having the indicated closed forms. -/
theorem c8_path_traversal_variants (d : Nat) (hd : 1 ≤ d) :
    Encoder.pathTraversalVariants d =
      [ jsRepeat ("../") d,
        jsRepeat ("..\\") d,
        Encoder.urlEncode (jsRepeat ("../") d),
        Encoder.urlEncode (Encoder.urlEncode (jsRepeat ("../") d)),
        jsReplaceAll (("..")) (("..%00")) (jsRepeat ("../") d),
        jsReplaceAll (("..")) (("..%2500")) (jsRepeat ("../") d),
        jsReplaceAll (("/")) (("%2f")) (jsRepeat ("../") d),
        jsReplaceAll (("/")) (("%252f")) (jsRepeat ("../") d),
        jsRepeat ("....//") d,
        jsRepeat ("..;/") d,
        jsRepeat ("..\\/") d,
        jsRepeat ("..%c0%af") d,
        jsRepeat ("..%c1%9c") d ] ∧
    (Encoder.pathTraversalVariants d).length = 13 ∧
    Encoder.urlEncode (jsRepeat ("../") d) = jsRepeat ("..%2F") d ∧
    Encoder.urlEncode (Encoder.urlEncode (jsRepeat ("../") d)) =
      jsRepeat ("..%252F") d ∧
    jsReplaceAll (("..")) (("..%00")) (jsRepeat ("../") d) = jsRepeat ("..%00/") d ∧
    jsReplaceAll (("..")) (("..%2500")) (jsRepeat ("../") d) =
      jsRepeat ("..%2500/") d ∧
    jsReplaceAll (("/")) (("%2f")) (jsRepeat ("../") d) = jsRepeat ("..%2f") d ∧
    jsReplaceAll (("/")) (("%252f")) (jsRepeat ("../") d) = jsRepeat ("..%252f") d :=
  ⟨rfl, rfl, urlEncode_dotdotslash d, urlEncode_twice_dotdotslash d,
    replaceAll_dots _ d, replaceAll_dots _ d, replaceAll_slash _ d,
    replaceAll_slash _ d⟩

/-- Witness for C8 at depth 2, with the concrete value of the url-encoded
variant. -/
theorem c8_path_traversal_variants_witness :
    (1 ≤ 2 ∧
      Encoder.pathTraversalVariants 2 =
        [ jsRepeat ("../") 2,
          jsRepeat ("..\\") 2,
          Encoder.urlEncode (jsRepeat ("../") 2),
          Encoder.urlEncode (Encoder.urlEncode (jsRepeat ("../") 2)),
          jsReplaceAll (("..")) (("..%00")) (jsRepeat ("../") 2),
          jsReplaceAll (("..")) (("..%2500")) (jsRepeat ("../") 2),
          jsReplaceAll (("/")) (("%2f")) (jsRepeat ("../") 2),
          jsReplaceAll (("/")) (("%252f")) (jsRepeat ("../") 2),
          jsRepeat ("....//") 2,
          jsRepeat ("..;/") 2,
          jsRepeat ("..\\/") 2,
          jsRepeat ("..%c0%af") 2,
          jsRepeat ("..%c1%9c") 2 ]) ∧
    Encoder.urlEncode (jsRepeat ("../") 2) = ("..%2F..%2F") :=
  ⟨⟨by decide, (c8_path_traversal_variants 2 (by decide)).1⟩,
    ((c8_path_traversal_variants 2 (by decide)).2.2.1).trans (by decide)⟩

/-! ## HTTP/2 framing (`src/http2.ts`, `Http2FrameBuilder` / `Http2FrameParser`) -/

/-- `buffer.writeUIntBE(n, off, 3)`: three big-endian bytes (the source
throws for `n ≥ 2^24`; the claims bound the length accordingly). -/
def writeUIntBE3 (n : Nat) : List Nat :=
  [n / 65536 % 256, n / 256 % 256, n % 256]

/-- `buffer.writeUInt32BE(n, off)`: four big-endian bytes. -/
def writeUInt32BE (n : Nat) : List Nat :=
  [n / 16777216 % 256, n / 65536 % 256, n / 256 % 256, n % 256]

/-- `buffer.readUIntBE(off, 3)` (reads of missing bytes modelled as 0; all
theorems evaluate in bounds). -/
def readUIntBE3 (l : List Nat) (off : Nat) : Nat :=
  l.getD off 0 * 65536 + l.getD (off + 1) 0 * 256 + l.getD (off + 2) 0

/-- `buffer.readUInt32BE(off)`. -/
def readUInt32BE (l : List Nat) (off : Nat) : Nat :=
  l.getD off 0 * 16777216 + l.getD (off + 1) 0 * 65536 +
    l.getD (off + 2) 0 * 256 + l.getD (off + 3) 0

/-- A parsed HTTP/2 frame record (`Http2Frame`): 24-bit length, 8-bit type,
8-bit flags, 31-bit stream id, payload bytes. -/
structure Http2Frame where
  length : Nat
  type : Nat
  flags : Nat
  streamId : Nat
  payload : List Nat
deriving DecidableEq, Repr

/-- `Http2FrameBuilder.buildFrame(type, flags, streamId, payload)`: 9-byte
header (length, type, flags, reserved-bit-cleared stream id) followed by the
payload. -/
def Http2FrameBuilder.buildFrame (type flags streamId : Nat)
    (payload : List Nat) : List Nat :=
  writeUIntBE3 payload.length ++ [type, flags] ++
    writeUInt32BE (streamId &&& 0x7fffffff) ++ payload

/-- `Http2FrameParser.parseFrame(buffer, offset)`: `null` when fewer than 9
bytes remain, or fewer than `9 + length`; otherwise the frame record and the
number of bytes read. -/
def Http2FrameParser.parseFrame (buffer : List Nat) (offset : Nat) :
    Option (Http2Frame × Nat) :=
  if buffer.length - offset < 9 then none
  else
    let length := readUIntBE3 buffer offset
    let type := buffer.getD (offset + 3) 0
    let flags := buffer.getD (offset + 4) 0
    let streamId := readUInt32BE buffer (offset + 5) &&& 0x7fffffff
    if buffer.length - offset < 9 + length then none
    else
      some ({ length := length, type := type, flags := flags,
              streamId := streamId,
              payload := (buffer.drop (offset + 9)).take length }, 9 + length)

/-- `Http2FrameParser.parseAllFrames(buffer)`: parse frames until the parser
returns `null`. -/
def Http2FrameParser.parseAllFrames (buffer : List Nat) : List Http2Frame :=
  go (buffer.length + 1) 0
where
  /-- The loop advances the offset by at least 9 bytes per frame, so fuel
  `buffer.length + 1` suffices. -/
  go : Nat → Nat → List Http2Frame
    | 0, _ => []
    | f + 1, offset =>
      if offset < buffer.length then
        match Http2FrameParser.parseFrame buffer offset with
        | none => []
        | some (fr, bytesRead) => fr :: go f (offset + bytesRead)
      else []

/-! ## C6: frame build/parse round-trip and null conditions -/

/-- C6: for every frame type byte `T`, flags byte `F`, stream id `S < 2^31`
and payload `P` with `|P| < 2^24`, parsing the built frame from offset 0
yields exactly the record `{length = |P|, type = T, flags = F, streamId = S,
payload = P}` with `9 + |P|` bytes consumed; and the parser returns `null`
whenever fewer than 9 bytes, or fewer than `9 + length` bytes, remain from
the given offset. -/
theorem c6_frame_roundtrip (T F S : Nat) (P : List Nat)
    (hT : T < 256) (hF : F < 256) (hS : S < 2 ^ 31) (hP : P.length < 2 ^ 24) :
    Http2FrameParser.parseFrame (Http2FrameBuilder.buildFrame T F S P) 0 =
      some ({ length := P.length, type := T, flags := F, streamId := S,
              payload := P }, 9 + P.length) ∧
    (∀ buf off, buf.length - off < 9 →
      Http2FrameParser.parseFrame buf off = none) ∧
    (∀ buf off, 9 ≤ buf.length - off →
      buf.length - off < 9 + readUIntBE3 buf off →
      Http2FrameParser.parseFrame buf off = none) := by
  have h31 : (0x7fffffff : Nat) = 2 ^ 31 - 1 := by norm_num
  have hS' : S &&& 0x7fffffff = S := by
    rw [h31, Nat.and_pow_two_sub_one_eq_mod]
    exact Nat.mod_eq_of_lt hS
  refine ⟨?_, ?_, ?_⟩
  · have hbuild : Http2FrameBuilder.buildFrame T F S P =
        P.length / 65536 % 256 :: P.length / 256 % 256 :: P.length % 256 ::
          T :: F :: S / 16777216 % 256 :: S / 65536 % 256 :: S / 256 % 256 ::
          S % 256 :: P := by
      simp [Http2FrameBuilder.buildFrame, writeUIntBE3, writeUInt32BE, hS']
    rw [hbuild]
    simp only [Http2FrameParser.parseFrame, List.length_cons, readUIntBE3,
      readUInt32BE, List.getD_cons_zero, List.getD_cons_succ,
      List.drop_succ_cons, List.drop_zero]
    have hlen : P.length / 65536 % 256 * 65536 + P.length / 256 % 256 * 256 +
        P.length % 256 = P.length := by omega
    have hsid : S / 16777216 % 256 * 16777216 + S / 65536 % 256 * 65536 +
        S / 256 % 256 * 256 + S % 256 = S := by omega
    rw [hlen, hsid, hS']
    rw [if_neg (by omega), if_neg (by omega), List.take_length]
  · intro buf off h
    simp only [Http2FrameParser.parseFrame]
    rw [if_pos h]
  · intro buf off h1 h2
    simp only [Http2FrameParser.parseFrame]
    rw [if_neg (by omega), if_pos h2]

/-- Witness for C6 at a concrete frame (type 1 HEADERS, flags 5,
stream 3, payload `[9, 8, 7]`). -/
theorem c6_frame_roundtrip_witness :
    Http2FrameParser.parseFrame (Http2FrameBuilder.buildFrame 1 5 3 [9, 8, 7]) 0 =
      some ({ length := 3, type := 1, flags := 5, streamId := 3,
              payload := [9, 8, 7] }, 9 + 3) :=
  (c6_frame_roundtrip 1 5 3 [9, 8, 7] (by decide) (by decide) (by decide)
    (by decide)).1

/-! ## JS string helpers shared by the builder projections and the parser -/

/-- The ASCII members of the JS `\s` class / characters removed by
`String.prototype.trim` (JS also covers non-ASCII Unicode spaces; every input
below is ASCII). -/
def jsWsChar (c : Char) : Bool :=
  c ∈ [' ', '\t', '\n', '\r', '\x0b', '\x0c']

/-- `String.prototype.trim` on character lists. -/
def trimL (l : List Char) : List Char :=
  ((l.dropWhile jsWsChar).reverse.dropWhile jsWsChar).reverse

/-- `s.trim()`. -/
def jsTrim (s : String) : String := ⟨trimL s.data⟩

/-- `s.toLowerCase()` (ASCII range; JS is Unicode-aware). -/
def jsToLower (s : String) : String := ⟨s.data.map Char.toLower⟩

/-- `s.startsWith(pat)`. -/
def jsStartsWith (pat s : String) : Bool := pat.data.isPrefixOf s.data

/-- `s.split(":")[0]`: the substring before the first colon (the whole string
when there is none). -/
def jsSplitHead (s : String) : String :=
  match idxOf (([':'])) s.data 0 with
  | some i => ⟨s.data.take i⟩
  | none => s

/-- Insertion-ordered association-list update with `Map.prototype.set`
semantics: an existing key keeps its position and gets the new value, a new
key is appended. -/
def mapSet {K V : Type} [DecidableEq K] : List (K × V) → K → V → List (K × V)
  | [], k, v => [(k, v)]
  | (k', v') :: t, k, v =>
    if k' = k then (k, v) :: t else (k', v') :: mapSet t k v

/-- `Map.prototype.get` on the association-list model. -/
def mapGet {K V : Type} [DecidableEq K] : List (K × V) → K → Option V
  | [], _ => none
  | (k', v) :: t, k => if k' = k then some v else mapGet t k

/-! ## HTTP/2 projections of the request plan (`src/builder.ts`) -/

/-- The `name` field of an entry (raw entries carry `name: ""`). -/
def entryName : HeaderEntry → String
  | .structured n _ => n
  | .raw _ => ("")

/-- The `value` field of an entry (raw entries carry `value: ""`). -/
def entryValue : HeaderEntry → String
  | .structured _ v => v
  | .raw _ => ("")

/-- `RequestBuilder.getHostHeader()`: the first entry whose (structured) name
lowercases to `host`, its value with any `:port` suffix removed. -/
def RequestBuilder.getHostHeader (p : RequestPlan) : Option String :=
  (p.headers.find? (fun e => jsToLower (entryName e) == ("host"))).map
    (fun e => jsSplitHead (entryValue e))

/-- The `:authority` value: `this._host || this.getHostHeader() || ""`. -/
def http2Authority (p : RequestPlan) : String :=
  if p.host ≠ ("") then p.host
  else match RequestBuilder.getHostHeader p with
    | some h => h
    | none => ("")

/-- The pseudo-header prefix shared by both HTTP/2 projections: four `set`s
on a fresh map with pairwise-distinct keys simply append in order. -/
def http2Pseudo (p : RequestPlan) : List (String × String) :=
  [((":method"), p.method), ((":path"), p.path), ((":scheme"), p.scheme),
    ((":authority"), http2Authority p)]

/-- One step of the `buildHttp2Headers` loop: raw entries (when truthy) are
parsed at the first colon, trimmed, lowercased, and set unless the name is
empty or starts with `:`; a falsy raw line falls into the structured branch
with name and value `""`; structured entries are lowercased and set unless
the name is `host`. -/
def http2HeadersStep (m : List (String × String)) : HeaderEntry → List (String × String)
  | .raw r =>
    if r ≠ ("") then
      match idxOf (([':'])) r.data 0 with
      | some ci =>
        if ci > 0 then
          let name := jsToLower (jsTrim ⟨r.data.take ci⟩)
          let value := jsTrim ⟨r.data.drop (ci + 1)⟩
          if name ≠ ("") ∧ ¬ jsStartsWith (":") name then mapSet m name value
          else m
        else m
      | none => m
    else mapSet m ("") ("")
  | .structured n v =>
    if jsToLower n ≠ ("host") then mapSet m (jsToLower n) v else m

/-- `RequestBuilder.buildHttp2Headers()`. -/
def RequestBuilder.buildHttp2Headers (p : RequestPlan) : List (String × String) :=
  p.headers.foldl http2HeadersStep (http2Pseudo p)

/-- One step of the `buildHttp2Request` header loop: like
`http2HeadersStep`, but raw entries are also dropped when the parsed name is
`host` (plain-object assignment instead of a `Map`; for the non-numeric keys
used here the ordering semantics coincide). -/
def http2RequestStep (m : List (String × String)) : HeaderEntry → List (String × String)
  | .raw r =>
    if r ≠ ("") then
      match idxOf (([':'])) r.data 0 with
      | some ci =>
        if ci > 0 then
          let name := jsToLower (jsTrim ⟨r.data.take ci⟩)
          let value := jsTrim ⟨r.data.drop (ci + 1)⟩
          if name ≠ ("") ∧ ¬ jsStartsWith (":") name ∧ name ≠ ("host") then
            mapSet m name value
          else m
        else m
      | none => m
    else mapSet m ("") ("")
  | .structured n v =>
    if jsToLower n ≠ ("host") then mapSet m (jsToLower n) v else m

/-- The record returned by `RequestBuilder.buildHttp2Request()`. -/
structure Http2RequestProj where
  method : String
  path : String
  authority : String
  scheme : String
  headers : List (String × String)
  body : String
deriving DecidableEq, Repr

/-- `RequestBuilder.buildHttp2Request()`. -/
def RequestBuilder.buildHttp2Request (p : RequestPlan) : Http2RequestProj :=
  { method := p.method, path := p.path, authority := http2Authority p,
    scheme := p.scheme, headers := p.headers.foldl http2RequestStep [],
    body := p.body }

/-! ## C9: duplicate collapsing and filtering in the HTTP/2 projections -/

/-- Setting a key makes it retrievable with the new value. -/
theorem mapGet_mapSet_self {K V : Type} [DecidableEq K] (m : List (K × V))
    (k : K) (v : V) : mapGet (mapSet m k v) k = some v := by
  induction m with
  | nil => simp [mapSet, mapGet]
  | cons h t ih =>
    obtain ⟨k', v'⟩ := h
    by_cases hk : k' = k
    · simp [mapSet, hk, mapGet]
    · simp [mapSet, hk, mapGet, ih]

/-- Setting a key leaves other keys unchanged. -/
theorem mapGet_mapSet_ne {K V : Type} [DecidableEq K] (m : List (K × V))
    (k k' : K) (v : V) (h : k' ≠ k) : mapGet (mapSet m k v) k' = mapGet m k' := by
  induction m with
  | nil =>
    simp only [mapSet, mapGet]
    rw [if_neg (fun hh => h hh.symm)]
  | cons hd t ih =>
    obtain ⟨k₀, v₀⟩ := hd
    by_cases hk : k₀ = k
    · subst hk
      have hne : k₀ ≠ k' := fun hh => h hh.symm
      simp [mapSet, mapGet, hne]
    · simp only [mapSet, if_neg hk, mapGet]
      by_cases hk' : k₀ = k'
      · simp [hk']
      · simp [hk', ih]

/-- Keys after a `set` come from the new key or the old keys. -/
theorem mapSet_keys_mem {K V : Type} [DecidableEq K] (m : List (K × V))
    (k : K) (v : V) (x : K) (hx : x ∈ (mapSet m k v).map Prod.fst) :
    x = k ∨ x ∈ m.map Prod.fst := by
  induction m with
  | nil => simpa [mapSet] using hx
  | cons hd t ih =>
    obtain ⟨k₀, v₀⟩ := hd
    by_cases hk : k₀ = k
    · simp only [mapSet, if_pos hk, List.map_cons, List.mem_cons] at hx ⊢
      tauto
    · simp only [mapSet, if_neg hk, List.map_cons, List.mem_cons] at hx ⊢
      rcases hx with hx | hx
      · tauto
      · rcases ih hx with h | h <;> tauto

/-- `set` preserves key distinctness. -/
theorem mapSet_keys_nodup {K V : Type} [DecidableEq K] (m : List (K × V))
    (k : K) (v : V) (h : (m.map Prod.fst).Nodup) :
    ((mapSet m k v).map Prod.fst).Nodup := by
  induction m with
  | nil => simp [mapSet]
  | cons hd t ih =>
    obtain ⟨k₀, v₀⟩ := hd
    simp only [List.map_cons, List.nodup_cons] at h
    by_cases hk : k₀ = k
    · subst hk
      rw [show mapSet ((k₀, v₀) :: t) k₀ v = (k₀, v) :: t from by simp [mapSet]]
      simpa using h
    · simp only [mapSet, if_neg hk, List.map_cons, List.nodup_cons]
      refine ⟨fun hmem => ?_, ih h.2⟩
      rcases mapSet_keys_mem t k v k₀ hmem with h' | h'
      · exact hk h'
      · exact h.1 h'

/-- A fold preserves any invariant preserved by its step. -/
theorem foldl_preserve {α β : Type} (step : α → β → α) (P : α → Prop)
    (hstep : ∀ m e, P m → P (step m e)) :
    ∀ (l : List β) (m : α), P m → P (List.foldl step m l) := by
  intro l
  induction l with
  | nil => intro m hm; simpa using hm
  | cons e t ih => intro m hm; exact ih (step m e) (hstep m e hm)

/-- Both projection steps produce either the old map or a single `set`. -/
theorem http2HeadersStep_cases (m : List (String × String)) (e : HeaderEntry) :
    http2HeadersStep m e = m ∨
      ∃ k v, http2HeadersStep m e = mapSet m k v := by
  cases e with
  | raw r =>
    simp only [http2HeadersStep]
    split
    · split
      · split
        · split
          · right; exact ⟨_, _, rfl⟩
          · left; rfl
        · left; rfl
      · left; rfl
    · right; exact ⟨_, _, rfl⟩
  | structured n v =>
    simp only [http2HeadersStep]
    split
    · right; exact ⟨_, _, rfl⟩
    · left; rfl

/-- Same case analysis for the `buildHttp2Request` step. -/
theorem http2RequestStep_cases (m : List (String × String)) (e : HeaderEntry) :
    http2RequestStep m e = m ∨
      ∃ k v, http2RequestStep m e = mapSet m k v := by
  cases e with
  | raw r =>
    simp only [http2RequestStep]
    split
    · split
      · split
        · split
          · right; exact ⟨_, _, rfl⟩
          · left; rfl
        · left; rfl
      · left; rfl
    · right; exact ⟨_, _, rfl⟩
  | structured n v =>
    simp only [http2RequestStep]
    split
    · right; exact ⟨_, _, rfl⟩
    · left; rfl

/-- The `buildHttp2Request` step never introduces a `host` key. -/
theorem http2RequestStep_no_host (m : List (String × String)) (e : HeaderEntry)
    (h : mapGet m ("host") = none) :
    mapGet (http2RequestStep m e) ("host") = none := by
  cases e with
  | raw r =>
    simp only [http2RequestStep]
    split
    · split
      · split
        · split
          · rename_i hcond
            rw [mapGet_mapSet_ne _ _ _ _ (fun hh => hcond.2.2 hh.symm)]
            exact h
          · exact h
        · exact h
      · exact h
    · rw [mapGet_mapSet_ne _ _ _ _ (by decide)]
      exact h
  | structured n v =>
    simp only [http2RequestStep]
    split
    · rename_i hcond
      rw [mapGet_mapSet_ne _ _ _ _ (fun hh => hcond hh.symm)]
      exact h
    · exact h

/-- `find?` ignores an appended element that fails the predicate. -/
theorem find?_append_last_neg {α : Type} (l : List α) (e : α) (p : α → Bool)
    (he : ¬ p e = true) : (l ++ [e]).find? p = l.find? p := by
  induction l with
  | nil => simp [List.find?, he]
  | cons a t ih =>
    by_cases ha : p a = true
    · simp [List.find?_cons_of_pos _ ha]
    · simp only [List.cons_append, List.find?_cons_of_neg _ ha]
      exact ih

/-- Appending a raw header does not change `getHostHeader` (raw entries have
an empty `name` field). -/
theorem getHostHeader_rawHeader (p : RequestPlan) (r : String) :
    RequestBuilder.getHostHeader (RequestBuilder.rawHeader p r) =
      RequestBuilder.getHostHeader p := by
  unfold RequestBuilder.getHostHeader RequestBuilder.rawHeader
  simp only
  rw [find?_append_last_neg]
  simp only [entryName]
  decide

/-- Appending a raw header does not change the `:authority` value. -/
theorem http2Authority_rawHeader (p : RequestPlan) (r : String) :
    http2Authority (RequestBuilder.rawHeader p r) = http2Authority p := by
  unfold http2Authority
  rw [getHostHeader_rawHeader]
  rfl

/-- The lowercased trimmed name parsed from a raw line by the HTTP/2
projections (set only when the line is truthy and the colon index is
positive). -/
def rawParsedName (r : String) : Option String :=
  if r ≠ ("") then
    match idxOf (([':'])) r.data 0 with
    | some ci =>
      if ci > 0 then some (jsToLower (jsTrim ⟨r.data.take ci⟩)) else none
    | none => none
  else none

/-- A raw line that begins with a colon parses at colon index 0 and is
dropped by both projections (the source's additional `startsWith(":")` guard
on the parsed name is unreachable: the parsed name stops before the first
colon and so can never contain one). -/
theorem http2Steps_drop_colon_line (m : List (String × String)) (r : String)
    (hstart : jsStartsWith (":") r = true) :
    http2HeadersStep m (.raw r) = m ∧ http2RequestStep m (.raw r) = m := by
  have hpre : ([':']).isPrefixOf r.data = true := hstart
  have hr : r ≠ ("") := by
    intro h0
    rw [h0] at hpre
    simp [List.isPrefixOf] at hpre
  have hidx : idxOf (([':'])) r.data 0 = some 0 := by
    unfold idxOf
    have hf : r.data.length + 1 - 0 = r.data.length + 1 := by omega
    rw [hf, idxOfGo, List.drop_zero, if_pos hpre]
  constructor
  · simp only [http2HeadersStep, if_pos hr]
    rw [hidx]
    simp
  · simp only [http2RequestStep, if_pos hr]
    rw [hidx]
    simp

/-- The plan `new RequestBuilder().rawHeader("Host: evil")`. -/
def c9Plan : RequestPlan := { headers := [.raw ("Host: evil")] }

/-- C9 counterexample: the claim says both HTTP/2 projections suppress any
`host` entry, but `buildHttp2Headers` has no host check in its raw-entry
branch: a raw line `Host: evil` yields a `host` entry with value `evil`. -/
theorem c9_raw_host_not_suppressed :
    mapGet (RequestBuilder.buildHttp2Headers c9Plan) ("host") = some ("evil") := by
  decide

/-- C9 (amended): in both HTTP/2 projections duplicate insertions are
collapsed — keys are distinct and a name (lowercased, non-`host`) inserted
last is mapped to its last value; `buildHttp2Request` suppresses every
`host` entry (structured or raw) while `buildHttp2Headers` suppresses only
structured ones; raw entries whose line begins with `:` (pseudo-header
lines — the parsed name stops at the first colon, so the claim's
"parsed name starts with ':'" filter manifests as the colon-index-0 drop)
are dropped by both projections; and `build()`'s input sequence keeps
duplicate structured entries in order (multiplicity preserved). -/
theorem c9_http2_projections (p : RequestPlan) (n v v' r : String) :
    ((RequestBuilder.buildHttp2Headers p).map Prod.fst).Nodup ∧
    (((RequestBuilder.buildHttp2Request p).headers).map Prod.fst).Nodup ∧
    (jsToLower n ≠ ("host") →
      mapGet (RequestBuilder.buildHttp2Headers (RequestBuilder.header p n v))
          (jsToLower n) = some v ∧
      mapGet (RequestBuilder.buildHttp2Request (RequestBuilder.header p n v)).headers
          (jsToLower n) = some v) ∧
    mapGet (RequestBuilder.buildHttp2Request p).headers ("host") = none ∧
    (jsStartsWith (":") r = true →
      RequestBuilder.buildHttp2Headers (RequestBuilder.rawHeader p r) =
        RequestBuilder.buildHttp2Headers p ∧
      (RequestBuilder.buildHttp2Request (RequestBuilder.rawHeader p r)).headers =
        (RequestBuilder.buildHttp2Request p).headers) ∧
    (RequestBuilder.header (RequestBuilder.header p n v) n v').headers =
      p.headers ++ [.structured n v, .structured n v'] := by
  refine ⟨?_, ?_, ?_, ?_, ?_, ?_⟩
  · refine foldl_preserve http2HeadersStep
      (fun m => (m.map Prod.fst).Nodup) ?_ p.headers (http2Pseudo p) ?_
    · intro m e hm
      rcases http2HeadersStep_cases m e with h | ⟨k, v₀, h⟩
      · rw [h]; exact hm
      · rw [h]; exact mapSet_keys_nodup m k v₀ hm
    · show ([(":method"), (":path"), (":scheme"), (":authority")] : List String).Nodup
      decide
  · refine foldl_preserve http2RequestStep
      (fun m => (m.map Prod.fst).Nodup) ?_ p.headers [] ?_
    · intro m e hm
      rcases http2RequestStep_cases m e with h | ⟨k, v₀, h⟩
      · rw [h]; exact hm
      · rw [h]; exact mapSet_keys_nodup m k v₀ hm
    · simp
  · intro hn
    constructor
    · show mapGet (List.foldl http2HeadersStep _ (p.headers ++ [.structured n v]))
        (jsToLower n) = some v
      rw [List.foldl_append]
      simp only [List.foldl_cons, List.foldl_nil, http2HeadersStep, if_pos hn]
      exact mapGet_mapSet_self _ _ _
    · show mapGet (List.foldl http2RequestStep [] (p.headers ++ [.structured n v]))
        (jsToLower n) = some v
      rw [List.foldl_append]
      simp only [List.foldl_cons, List.foldl_nil, http2RequestStep, if_pos hn]
      exact mapGet_mapSet_self _ _ _
  · exact foldl_preserve http2RequestStep
      (fun m => mapGet m ("host") = none) http2RequestStep_no_host p.headers [] rfl
  · intro hstart
    constructor
    · show List.foldl http2HeadersStep (http2Pseudo (RequestBuilder.rawHeader p r))
        (p.headers ++ [.raw r]) = _
      rw [List.foldl_append]
      simp only [List.foldl_cons, List.foldl_nil]
      rw [(http2Steps_drop_colon_line _ r hstart).1]
      unfold http2Pseudo
      rw [http2Authority_rawHeader]
      rfl
    · show List.foldl http2RequestStep [] (p.headers ++ [.raw r]) = _
      rw [List.foldl_append]
      simp only [List.foldl_cons, List.foldl_nil]
      rw [(http2Steps_drop_colon_line _ r hstart).2]
      rfl
  · simp [RequestBuilder.header]

/-- Witness for C9 at concrete inputs: a duplicated `X-Dup` header collapses
to its last value in both projections, and the raw pseudo-header line
`:method: EVIL` is dropped. -/
theorem c9_http2_projections_witness :
    (mapGet (RequestBuilder.buildHttp2Headers
        (RequestBuilder.header (RequestBuilder.header { headers := [] }
          ("X-Dup") ("a")) ("X-Dup") ("b"))) (jsToLower ("X-Dup")) = some ("b")) ∧
    RequestBuilder.buildHttp2Headers
        (RequestBuilder.rawHeader { headers := [] } (":method: EVIL")) =
      RequestBuilder.buildHttp2Headers ({ headers := [] } : RequestPlan) :=
  ⟨((c9_http2_projections (RequestBuilder.header { headers := [] } ("X-Dup") ("a"))
      ("X-Dup") ("b") ("b") ("")).2.2.1 (by decide)).1,
    ((c9_http2_projections { headers := [] } ("n") ("v") ("v")
      (":method: EVIL")).2.2.2.2.1 (by decide)).1⟩

/-! ## HPACK codec (`src/http2.ts`, `HpackEncoder` / `HpackDecoder`) -/

/-- The source's `HPACK_STATIC_TABLE` (RFC 7541 §A with index 0 unused). -/
def HPACK_STATIC_TABLE : List (String × String) :=
  [ (("") , ("")),
    ((":authority"), ("")),
    ((":method"), ("GET")),
    ((":method"), ("POST")),
    ((":path"), ("/")),
    ((":path"), ("/index.html")),
    ((":scheme"), ("http")),
    ((":scheme"), ("https")),
    ((":status"), ("200")),
    ((":status"), ("204")),
    ((":status"), ("206")),
    ((":status"), ("304")),
    ((":status"), ("400")),
    ((":status"), ("404")),
    ((":status"), ("500")),
    (("accept-charset"), ("")),
    (("accept-encoding"), ("gzip, deflate")),
    (("accept-language"), ("")),
    (("accept-ranges"), ("")),
    (("accept"), ("")),
    (("access-control-allow-origin"), ("")),
    (("age"), ("")),
    (("allow"), ("")),
    (("authorization"), ("")),
    (("cache-control"), ("")),
    (("content-disposition"), ("")),
    (("content-encoding"), ("")),
    (("content-language"), ("")),
    (("content-length"), ("")),
    (("content-location"), ("")),
    (("content-range"), ("")),
    (("content-type"), ("")),
    (("cookie"), ("")),
    (("date"), ("")),
    (("etag"), ("")),
    (("expect"), ("")),
    (("expires"), ("")),
    (("from"), ("")),
    (("host"), ("")),
    (("if-match"), ("")),
    (("if-modified-since"), ("")),
    (("if-none-match"), ("")),
    (("if-range"), ("")),
    (("if-unmodified-since"), ("")),
    (("last-modified"), ("")),
    (("link"), ("")),
    (("location"), ("")),
    (("max-forwards"), ("")),
    (("proxy-authenticate"), ("")),
    (("proxy-authorization"), ("")),
    (("range"), ("")),
    (("referer"), ("")),
    (("refresh"), ("")),
    (("retry-after"), ("")),
    (("server"), ("")),
    (("set-cookie"), ("")),
    (("strict-transport-security"), ("")),
    (("transfer-encoding"), ("")),
    (("user-agent"), ("")),
    (("vary"), ("")),
    (("via"), ("")),
    (("www-authenticate"), ("")) ]

/-- The `for (let i = 1; i < HPACK_STATIC_TABLE.length; i++)` search shared
by both table lookups: the index of the first entry satisfying `p`, counting
from `i0`, or 0 when absent. -/
def findPairFrom (p : String × String → Bool) : Nat → List (String × String) → Nat
  | _, [] => 0
  | i, e :: t => if p e then i else findPairFrom p (i + 1) t

/-- `HpackEncoder.findStaticTableIndex(name)`: scan indices 1..61 for the
first name match against the lowercased query; 0 when absent. -/
def HpackEncoder.findStaticTableIndex (name : String) : Nat :=
  findPairFrom (fun e => e.1 == jsToLower name) 1 (HPACK_STATIC_TABLE.drop 1)

/-- `HpackEncoder.findStaticTableExactIndex(name, value)`. -/
def HpackEncoder.findStaticTableExactIndex (name value : String) : Nat :=
  findPairFrom (fun e => e.1 == jsToLower name && e.2 == value) 1
    (HPACK_STATIC_TABLE.drop 1)

/-- Continuation octets of the HPACK integer encoding: 7-bit groups little
endian, high bit set on all but the last (the `while value >= 128` loop).
Fuel `v` suffices since the value shrinks by a factor 128 each step. -/
def varOctetsGo : Nat → Nat → List Nat
  | 0, v => [v]
  | f + 1, v => if v < 128 then [v] else (v % 128 + 128) :: varOctetsGo f (v / 128)

/-- `HpackEncoder.encodeInteger(value, prefixBits, prefixValue)`. -/
def HpackEncoder.encodeInteger (value pfxBits pfxValue : Nat) : List Nat :=
  let maxPfx := (1 <<< pfxBits) - 1
  if value < maxPfx then [pfxValue ||| value]
  else (pfxValue ||| maxPfx) :: varOctetsGo (value - maxPfx) (value - maxPfx)

/-- `HpackEncoder.encodeString(str)` with `H = 0`: 7-bit-prefix length then
the raw UTF-8 bytes (Huffman is never emitted). -/
def HpackEncoder.encodeString (s : String) : List Nat :=
  HpackEncoder.encodeInteger (utf8Encode s).length 7 0x00 ++ utf8Encode s

/-- One iteration of the `encodeHeaders` loop (literal with incremental
indexing / indexed representations). -/
def encodePairIdx (nv : String × String) : List Nat :=
  let exactIndex := HpackEncoder.findStaticTableExactIndex nv.1 nv.2
  if exactIndex > 0 then HpackEncoder.encodeInteger exactIndex 7 0x80
  else
    let nameIndex := HpackEncoder.findStaticTableIndex nv.1
    if nameIndex > 0 then
      HpackEncoder.encodeInteger nameIndex 6 0x40 ++ HpackEncoder.encodeString nv.2
    else
      0x40 :: (HpackEncoder.encodeString nv.1 ++ HpackEncoder.encodeString nv.2)

/-- `HpackEncoder.encodeHeaders(headers)` over the ordered entry list of the
input map. -/
def HpackEncoder.encodeHeaders (headers : List (String × String)) : List Nat :=
  (headers.map encodePairIdx).flatten

/-- One iteration of the `encodeHeadersLiteral` loop.  Note the source emits
`0x00 | staticIndex` as a single byte with no 4-bit-prefix integer
encoding. -/
def encodePairLit (nv : String × String) : List Nat :=
  let staticIndex := HpackEncoder.findStaticTableIndex nv.1
  if staticIndex > 0 then
    (0x00 ||| staticIndex) :: HpackEncoder.encodeString nv.2
  else
    0x00 :: (HpackEncoder.encodeString nv.1 ++ HpackEncoder.encodeString nv.2)

/-- `HpackEncoder.encodeHeadersLiteral(headers)`. -/
def HpackEncoder.encodeHeadersLiteral (headers : List (String × String)) : List Nat :=
  (headers.map encodePairLit).flatten

/-- The `do..while` continuation loop of `HpackDecoder.decodeInteger`
(consuming form; a read past the end behaves as byte 0, matching
`undefined & 0x7f`). -/
def decodeVarLoop : List Nat → Nat → Nat → Nat × List Nat
  | [], _, acc => (acc, [])
  | b :: rest, m, acc =>
    let acc' := acc + ((b &&& 0x7f) <<< m)
    if b &&& 0x80 ≠ 0 then decodeVarLoop rest (m + 7) acc' else (acc', rest)

/-- `HpackDecoder.decodeInteger(buffer, offset, prefixBits)` in consuming
form: the decoded value and the remaining bytes. -/
def HpackDecoder.decodeInteger (pfxBits : Nat) : List Nat → Nat × List Nat
  | [] => (0, [])
  | b :: rest =>
    let maxPfx := (1 <<< pfxBits) - 1
    let v := b &&& maxPfx
    if v = maxPfx then decodeVarLoop rest 0 v else (v, rest)

/-- `HpackDecoder.decodeString(buffer, offset)` in consuming form.  The
Huffman flag (top bit of the first byte) is read but both branches fall back
to plain UTF-8, as in the source. -/
def HpackDecoder.decodeString (l : List Nat) : String × List Nat :=
  let len := (HpackDecoder.decodeInteger 7 l).1
  let rest := (HpackDecoder.decodeInteger 7 l).2
  (utf8Decode (rest.take len), rest.drop len)

/-- `HpackDecoder.getTableEntry(index)`: 1..61 static, 62.. dynamic. -/
def HpackDecoder.getTableEntry (index : Nat) (dyn : List (String × String)) :
    Option (String × String) :=
  if index = 0 then none
  else if index < HPACK_STATIC_TABLE.length then HPACK_STATIC_TABLE.get? index
  else dyn.get? (index - HPACK_STATIC_TABLE.length)

/-- The `while (offset < buffer.length)` loop of
`HpackDecoder.decodeHeaders`, dispatching on the top bits of the leading
byte; carries the output map and the dynamic table.  Every iteration
consumes at least one byte, so fuel `buffer.length` suffices. -/
def decodeHeadersGo :
    Nat → List Nat → List (String × String) → List (String × String) →
      List (String × String)
  | 0, _, headers, _ => headers
  | _ + 1, [], headers, _ => headers
  | f + 1, b :: rest, headers, dyn =>
    if b &&& 0x80 ≠ 0 then
      let dec := HpackDecoder.decodeInteger 7 (b :: rest)
      match HpackDecoder.getTableEntry dec.1 dyn with
      | some e => decodeHeadersGo f dec.2 (mapSet headers e.1 e.2) dyn
      | none => decodeHeadersGo f dec.2 headers dyn
    else if b &&& 0x40 ≠ 0 then
      let dec := HpackDecoder.decodeInteger 6 (b :: rest)
      let nm :=
        if dec.1 > 0 then
          (match HpackDecoder.getTableEntry dec.1 dyn with
           | some e => e.1
           | none => (""), dec.2)
        else HpackDecoder.decodeString dec.2
      let vl := HpackDecoder.decodeString nm.2
      decodeHeadersGo f vl.2 (mapSet headers nm.1 vl.1) ((nm.1, vl.1) :: dyn)
    else if b &&& 0x20 ≠ 0 then
      let dec := HpackDecoder.decodeInteger 5 (b :: rest)
      decodeHeadersGo f dec.2 headers (if dec.1 = 0 then [] else dyn)
    else
      let pfx := if b &&& 0x10 ≠ 0 then 4 else 4
      let dec := HpackDecoder.decodeInteger pfx (b :: rest)
      let nm :=
        if dec.1 > 0 then
          (match HpackDecoder.getTableEntry dec.1 dyn with
           | some e => e.1
           | none => (""), dec.2)
        else HpackDecoder.decodeString dec.2
      let vl := HpackDecoder.decodeString nm.2
      decodeHeadersGo f vl.2 (mapSet headers nm.1 vl.1) dyn

/-- `HpackDecoder.decodeHeaders(buffer)` from a fresh decoder (empty dynamic
table), as used for a single header block. -/
def HpackDecoder.decodeHeaders (buffer : List Nat) : List (String × String) :=
  decodeHeadersGo buffer.length buffer [] []

/-! ## C2: HPACK round-trip lemmas -/

/-- Bitwise facts on bytes, discharged by bounded enumeration. -/
theorem byteAnd127 : ∀ x < 128, x &&& 127 = x := by decide

/-- Low bytes have the top bit clear. -/
theorem byteAnd128 : ∀ x < 128, x &&& 128 = 0 := by decide

/-- Continuation octets: low 7 bits recovered. -/
theorem byteAdd128And127 : ∀ x < 128, (x + 128) &&& 127 = x := by decide

/-- Continuation octets: top bit set. -/
theorem byteAdd128And128 : ∀ x < 128, (x + 128) &&& 128 = 128 := by decide

/-- `0x80 | i` is plain addition for small `i`. -/
theorem lor128Add : ∀ x < 128, 128 ||| x = 128 + x := by decide

/-- `0x40 | i` is plain addition for small `i`. -/
theorem lor64Add : ∀ x < 64, 64 ||| x = 64 + x := by decide

/-- 6-bit prefix recovery. -/
theorem byteAdd64And63 : ∀ x < 64, (64 + x) &&& 63 = x := by decide

/-- `0x40 | i` has bit 7 clear. -/
theorem byteAdd64And128 : ∀ x < 64, (64 + x) &&& 128 = 0 := by decide

/-- `0x40 | i` has bit 6 set. -/
theorem byteAdd64And64 : ∀ x < 64, (64 + x) &&& 64 = 64 := by decide

/-- Bytes below 64 have bit 6 clear. -/
theorem byteAnd64 : ∀ x < 64, x &&& 64 = 0 := by decide

/-- Bytes below 32 have bit 5 clear. -/
theorem byteAnd32 : ∀ x < 32, x &&& 32 = 0 := by decide

/-- 4-bit prefix recovery for bytes below 16. -/
theorem byteAnd15 : ∀ x < 16, x &&& 15 = x := by decide

/-- The varint continuation loop decodes what `varOctetsGo` emits. -/
theorem decodeVarLoop_varOctets (tail : List Nat) :
    ∀ g v m acc, v ≤ g →
      decodeVarLoop (varOctetsGo g v ++ tail) m acc = (acc + (v <<< m), tail) := by
  intro g
  induction g with
  | zero =>
    intro v m acc hv
    have hv0 : v = 0 := Nat.le_zero.mp hv
    subst hv0
    simp [varOctetsGo, decodeVarLoop]
  | succ n ih =>
    intro v m acc hv
    by_cases hsmall : v < 128
    · simp only [varOctetsGo, if_pos hsmall, List.cons_append, decodeVarLoop]
      rw [byteAnd127 v hsmall, byteAnd128 v hsmall]
      simp
    · simp only [varOctetsGo, if_neg hsmall, List.cons_append, decodeVarLoop]
      have hm : v % 128 < 128 := Nat.mod_lt _ (by omega)
      rw [byteAdd128And127 _ hm, byteAdd128And128 _ hm]
      have hdivlt : v / 128 < v := Nat.div_lt_self (by omega) (by omega)
      rw [if_pos (by omega)]
      rw [ih (v / 128) (m + 7) (acc + (v % 128) <<< m) (by omega)]
      have hsplit : 128 * (v / 128) + v % 128 = v := Nat.div_add_mod v 128
      have harith : acc + (v % 128) <<< m + (v / 128) <<< (m + 7) =
          acc + v <<< m := by
        simp only [Nat.shiftLeft_eq, pow_add]
        conv_rhs => rw [← hsplit]
        ring
      rw [harith]

/-- A 7-bit-prefix zero-prefixed integer (string length) round-trips. -/
theorem decodeInteger_encodeInteger7 (L : Nat) (tail : List Nat) :
    HpackDecoder.decodeInteger 7 (HpackEncoder.encodeInteger L 7 0 ++ tail) =
      (L, tail) := by
  have h7 : ((1 <<< 7 : Nat) - 1) = 127 := by decide
  by_cases hL : L < 127
  · simp only [HpackEncoder.encodeInteger]
    rw [if_pos (by simpa [h7] using hL)]
    simp only [Nat.zero_or, List.cons_append, HpackDecoder.decodeInteger, h7]
    rw [byteAnd127 L (by omega)]
    rw [if_neg (Nat.ne_of_lt hL)]
    simp
  · simp only [HpackEncoder.encodeInteger, h7]
    rw [if_neg hL]
    simp only [List.cons_append, HpackDecoder.decodeInteger, h7]
    rw [show ((0 : Nat) ||| 127) = 127 from by decide]
    rw [show ((127 : Nat) &&& 127) = 127 from by decide]
    rw [if_pos rfl]
    rw [decodeVarLoop_varOctets tail (L - 127) (L - 127) 0 127 (Nat.le_refl _)]
    have harith : (127 : Nat) + (L - 127) <<< 0 = L := by
      simp only [Nat.shiftLeft_eq, pow_zero, Nat.mul_one]
      omega
    rw [harith]

/-- Whether every character of a string is ASCII. -/
def asciiStr (s : String) : Bool := s.data.all (fun c => c.toNat < 128)

/-- UTF-8 encoding of an all-ASCII character list is the code list. -/
theorem flatMap_utf8EncodeChar_ascii :
    ∀ l : List Char, (∀ c ∈ l, c.toNat < 128) →
      l.flatMap utf8EncodeChar = l.map Char.toNat := by
  intro l
  induction l with
  | nil => simp
  | cons c t ih =>
    intro h
    have hc : c.toNat < 128 := h c (by simp)
    simp only [List.flatMap_cons, List.map_cons]
    rw [ih (fun x hx => h x (by simp [hx]))]
    simp only [utf8EncodeChar, if_pos hc]
    rfl

/-- `utf8Encode` of an ASCII string is its code list. -/
theorem utf8Encode_ascii (s : String) (h : asciiStr s = true) :
    utf8Encode s = s.data.map Char.toNat := by
  unfold utf8Encode
  exact flatMap_utf8EncodeChar_ascii s.data (by simpa [asciiStr, List.all_eq_true] using h)

/-- The lenient UTF-8 decoder inverts the ASCII code list. -/
theorem utf8DecodeGo_ascii :
    ∀ f (l : List Char), (∀ c ∈ l, c.toNat < 128) → l.length ≤ f →
      utf8DecodeGo f (l.map Char.toNat) = l := by
  intro f
  induction f with
  | zero =>
    intro l _ hlen
    have : l = [] := List.length_eq_zero.mp (Nat.le_zero.mp hlen)
    subst this
    rfl
  | succ n ih =>
    intro l h hlen
    cases l with
    | nil => rfl
    | cons c t =>
      have hc : c.toNat < 128 := h c (by simp)
      have hlen' : t.length ≤ n := by
        simp only [List.length_cons] at hlen
        omega
      simp only [List.map_cons, utf8DecodeGo, if_pos hc]
      rw [ih t (fun x hx => h x (by simp [hx])) hlen']
      simp [Char.ofNat_toNat]

/-- `utf8Decode ∘ utf8Encode` is the identity on ASCII strings. -/
theorem utf8Decode_utf8Encode_ascii (s : String) (h : asciiStr s = true) :
    utf8Decode (utf8Encode s) = s := by
  rw [utf8Encode_ascii s h]
  unfold utf8Decode utf8DecodeList
  rw [show (s.data.map Char.toNat).length = s.data.length from by simp]
  rw [utf8DecodeGo_ascii s.data.length s.data
    (by simpa [asciiStr, List.all_eq_true] using h) (Nat.le_refl _)]

/-- The HPACK string primitive round-trips on ASCII strings. -/
theorem decodeString_encodeString (s : String) (tail : List Nat)
    (h : asciiStr s = true) :
    HpackDecoder.decodeString (HpackEncoder.encodeString s ++ tail) = (s, tail) := by
  unfold HpackDecoder.decodeString HpackEncoder.encodeString
  rw [List.append_assoc]
  rw [decodeInteger_encodeInteger7 (utf8Encode s).length (utf8Encode s ++ tail)]
  simp only
  rw [List.take_left' rfl, List.drop_left' rfl]
  rw [utf8Decode_utf8Encode_ascii s h]

/-- What a successful `findPairFrom` returns: an in-range index whose entry
(relative to the scan base) satisfies the predicate. -/
theorem findPairFrom_spec (p : String × String → Bool) :
    ∀ (l : List (String × String)) (i0 : Nat),
      findPairFrom p i0 l = 0 ∨
      (i0 ≤ findPairFrom p i0 l ∧ findPairFrom p i0 l < i0 + l.length ∧
        ∃ e, l.get? (findPairFrom p i0 l - i0) = some e ∧ p e = true) := by
  intro l
  induction l with
  | nil => intro i0; left; rfl
  | cons e t ih =>
    intro i0
    by_cases hp : p e = true
    · right
      simp only [findPairFrom, if_pos hp]
      refine ⟨Nat.le_refl _, by simp only [List.length_cons]; omega, e, ?_, hp⟩
      simp
    · simp only [findPairFrom, if_neg hp]
      rcases ih (i0 + 1) with h0 | ⟨h1, h2, e', he', hpe'⟩
      · left; exact h0
      · right
        refine ⟨by omega, by simp only [List.length_cons]; omega, e', ?_, hpe'⟩
        have hidx : findPairFrom p (i0 + 1) t - i0 =
            (findPairFrom p (i0 + 1) t - (i0 + 1)) + 1 := by omega
        rw [hidx]
        simpa using he'

/-- The length of the static table. -/
theorem hpack_table_length : HPACK_STATIC_TABLE.length = 62 := by decide

/-- A positive `findStaticTableIndex` points at a static entry whose name is
the lowercased query. -/
theorem findStaticTableIndex_get (name : String)
    (h : HpackEncoder.findStaticTableIndex name > 0) :
    1 ≤ HpackEncoder.findStaticTableIndex name ∧
    HpackEncoder.findStaticTableIndex name < 62 ∧
    ∃ w, HPACK_STATIC_TABLE.get? (HpackEncoder.findStaticTableIndex name) =
      some (jsToLower name, w) := by
  unfold HpackEncoder.findStaticTableIndex at h ⊢
  rcases findPairFrom_spec (fun e => e.1 == jsToLower name)
      (HPACK_STATIC_TABLE.drop 1) 1 with h0 | ⟨h1, h2, e, he, hpe⟩
  · omega
  · have hlen : (HPACK_STATIC_TABLE.drop 1).length = 61 := by decide
    set k := findPairFrom (fun e => e.1 == jsToLower name) 1
      (HPACK_STATIC_TABLE.drop 1) with hk
    refine ⟨h1, by omega, e.2, ?_⟩
    have hname : e.1 = jsToLower name := by
      simpa using hpe
    have hdrop : HPACK_STATIC_TABLE.get? k =
        (HPACK_STATIC_TABLE.drop 1).get? (k - 1) := by
      conv_lhs => rw [show HPACK_STATIC_TABLE =
        (("") , ("")) :: HPACK_STATIC_TABLE.drop 1 from rfl]
      rw [show k = (k - 1) + 1 from by omega, List.get?_cons_succ]
      all_goals (congr 1 <;> omega)
    rw [hdrop, he, ← hname]

/-- A positive `findStaticTableExactIndex` points at the exact static
entry. -/
theorem findStaticTableExactIndex_get (name value : String)
    (h : HpackEncoder.findStaticTableExactIndex name value > 0) :
    1 ≤ HpackEncoder.findStaticTableExactIndex name value ∧
    HpackEncoder.findStaticTableExactIndex name value < 62 ∧
    HPACK_STATIC_TABLE.get? (HpackEncoder.findStaticTableExactIndex name value) =
      some (jsToLower name, value) := by
  unfold HpackEncoder.findStaticTableExactIndex at h ⊢
  rcases findPairFrom_spec (fun e => e.1 == jsToLower name && e.2 == value)
      (HPACK_STATIC_TABLE.drop 1) 1 with h0 | ⟨h1, h2, e, he, hpe⟩
  · omega
  · have hlen : (HPACK_STATIC_TABLE.drop 1).length = 61 := by decide
    set k := findPairFrom (fun e => e.1 == jsToLower name && e.2 == value) 1
      (HPACK_STATIC_TABLE.drop 1) with hk
    refine ⟨h1, by omega, ?_⟩
    have hname : e.1 = jsToLower name ∧ e.2 = value := by
      constructor <;> simp_all
    have hdrop : HPACK_STATIC_TABLE.get? k =
        (HPACK_STATIC_TABLE.drop 1).get? (k - 1) := by
      conv_lhs => rw [show HPACK_STATIC_TABLE =
        (("") , ("")) :: HPACK_STATIC_TABLE.drop 1 from rfl]
      rw [show k = (k - 1) + 1 from by omega, List.get?_cons_succ]
      all_goals (congr 1 <;> omega)
    rw [hdrop, he, ← hname.1, ← hname.2]

/-- In range 1..61 `getTableEntry` reads the static table, regardless of the
dynamic table. -/
theorem getTableEntry_static (i : Nat) (dyn : List (String × String))
    (h1 : 1 ≤ i) (h2 : i < 62) :
    HpackDecoder.getTableEntry i dyn = HPACK_STATIC_TABLE.get? i := by
  unfold HpackDecoder.getTableEntry
  rw [if_neg (by omega), if_pos (by rw [hpack_table_length]; omega)]

/-- `0x80 | i` byte facts in the `128 + i` orientation. -/
theorem byte128pAnd127 : ∀ x < 128, (128 + x) &&& 127 = x := by decide

/-- Top bit of an indexed-representation byte. -/
theorem byte128pAnd128 : ∀ x < 128, (128 + x) &&& 128 = 128 := by decide

/-- The decoder loop on an indexed header field byte `0x80 | i`. -/
theorem decodeGo_indexed (i : Nat) (hi1 : 1 ≤ i) (hi2 : i < 62)
    (rest : List Nat) (f : Nat) (hdrs dyn : List (String × String)) :
    decodeHeadersGo (f + 1) ((128 + i) :: rest) hdrs dyn =
      match HpackDecoder.getTableEntry i dyn with
      | some e => decodeHeadersGo f rest (mapSet hdrs e.1 e.2) dyn
      | none => decodeHeadersGo f rest hdrs dyn := by
  have hdec : HpackDecoder.decodeInteger 7 ((128 + i) :: rest) = (i, rest) := by
    simp only [HpackDecoder.decodeInteger]
    rw [show ((1 <<< 7 : Nat) - 1) = 127 from by decide]
    rw [byte128pAnd127 i (by omega)]
    rw [if_neg (by omega)]
  have hcond : ((128 + i) &&& 128 ≠ 0) := by
    rw [byte128pAnd128 i (by omega)]
    omega
  simp only [decodeHeadersGo]
  rw [if_pos hcond, hdec]

/-- The decoder loop on a literal-with-incremental-indexing byte `0x40 | i`
with a positive static name index. -/
theorem decodeGo_litIncr_nameIdx (i : Nat) (hi1 : 1 ≤ i) (hi2 : i < 62)
    (rest : List Nat) (f : Nat) (hdrs dyn : List (String × String)) :
    decodeHeadersGo (f + 1) ((64 + i) :: rest) hdrs dyn =
      (fun name vl => decodeHeadersGo f vl.2 (mapSet hdrs name vl.1)
          ((name, vl.1) :: dyn))
        (match HpackDecoder.getTableEntry i dyn with
         | some e => e.1
         | none => (""))
        (HpackDecoder.decodeString rest) := by
  have hdec : HpackDecoder.decodeInteger 6 ((64 + i) :: rest) = (i, rest) := by
    simp only [HpackDecoder.decodeInteger]
    rw [show ((1 <<< 6 : Nat) - 1) = 63 from by decide]
    rw [byteAdd64And63 i (by omega)]
    rw [if_neg (by omega)]
  have hcond1 : ¬ ((64 + i) &&& 128 ≠ 0) := by
    rw [byteAdd64And128 i (by omega)]
    omega
  have hcond2 : ((64 + i) &&& 64 ≠ 0) := by
    rw [byteAdd64And64 i (by omega)]
    omega
  simp only [decodeHeadersGo]
  rw [if_neg hcond1, if_pos hcond2, hdec]
  simp only [if_pos (by omega : i > 0)]

/-- The decoder loop on the new-name literal-with-incremental-indexing byte
`0x40`. -/
theorem decodeGo_litIncr_newName (rest : List Nat) (f : Nat)
    (hdrs dyn : List (String × String)) :
    decodeHeadersGo (f + 1) (64 :: rest) hdrs dyn =
      (fun nm => (fun vl => decodeHeadersGo f vl.2 (mapSet hdrs nm.1 vl.1)
          ((nm.1, vl.1) :: dyn)) (HpackDecoder.decodeString nm.2))
        (HpackDecoder.decodeString rest) := by
  have hdec : HpackDecoder.decodeInteger 6 (64 :: rest) = (0, rest) := by
    simp only [HpackDecoder.decodeInteger]
    rw [show ((1 <<< 6 : Nat) - 1) = 63 from by decide]
    rw [show ((64 : Nat) &&& 63) = 0 from by decide]
    rw [if_neg (by omega)]
  have hcond1 : ¬ ((64 : Nat) &&& 128 ≠ 0) := by decide
  have hcond2 : ((64 : Nat) &&& 64 ≠ 0) := by decide
  simp only [decodeHeadersGo]
  rw [if_neg hcond1, if_pos hcond2, hdec]
  simp only [if_neg (by omega : ¬ ((0 : Nat) > 0))]

/-- The decoder loop on a literal-without-indexing byte `0x00 | i` for
`1 ≤ i ≤ 14` (the only static-index bytes the literal encoder emits that
decode correctly). -/
theorem decodeGo_litNoIdx_nameIdx (i : Nat) (hi1 : 1 ≤ i) (hi2 : i ≤ 14)
    (rest : List Nat) (f : Nat) (hdrs dyn : List (String × String)) :
    decodeHeadersGo (f + 1) (i :: rest) hdrs dyn =
      (fun name vl => decodeHeadersGo f vl.2 (mapSet hdrs name vl.1) dyn)
        (match HpackDecoder.getTableEntry i dyn with
         | some e => e.1
         | none => (""))
        (HpackDecoder.decodeString rest) := by
  have hdec : HpackDecoder.decodeInteger 4 (i :: rest) = (i, rest) := by
    simp only [HpackDecoder.decodeInteger]
    rw [show ((1 <<< 4 : Nat) - 1) = 15 from by decide]
    rw [byteAnd15 i (by omega)]
    rw [if_neg (by omega)]
  have hcond1 : ¬ (i &&& 128 ≠ 0) := by
    rw [byteAnd128 i (by omega)]
    omega
  have hcond2 : ¬ (i &&& 64 ≠ 0) := by
    rw [byteAnd64 i (by omega)]
    omega
  have hcond3 : ¬ (i &&& 32 ≠ 0) := by
    rw [byteAnd32 i (by omega)]
    omega
  simp only [decodeHeadersGo]
  rw [if_neg hcond1, if_neg hcond2, if_neg hcond3]
  have hpfx : (if i &&& 16 ≠ 0 then 4 else 4) = 4 := by
    split <;> rfl
  rw [hpfx, hdec]
  simp only [if_pos (by omega : i > 0)]

/-- The decoder loop on the new-name literal-without-indexing byte `0x00`. -/
theorem decodeGo_litNoIdx_newName (rest : List Nat) (f : Nat)
    (hdrs dyn : List (String × String)) :
    decodeHeadersGo (f + 1) (0 :: rest) hdrs dyn =
      (fun nm => (fun vl => decodeHeadersGo f vl.2 (mapSet hdrs nm.1 vl.1) dyn)
          (HpackDecoder.decodeString nm.2))
        (HpackDecoder.decodeString rest) := by
  have hdec : HpackDecoder.decodeInteger 4 (0 :: rest) = (0, rest) := by
    simp only [HpackDecoder.decodeInteger]
    rw [show ((1 <<< 4 : Nat) - 1) = 15 from by decide]
    rw [show ((0 : Nat) &&& 15) = 0 from by decide]
    rw [if_neg (by omega)]
  simp only [decodeHeadersGo]
  rw [if_neg (by decide : ¬ ((0 : Nat) &&& 128 ≠ 0)),
    if_neg (by decide : ¬ ((0 : Nat) &&& 64 ≠ 0)),
    if_neg (by decide : ¬ ((0 : Nat) &&& 32 ≠ 0))]
  have hpfx : (if (0 : Nat) &&& 16 ≠ 0 then 4 else 4) = 4 := by
    split <;> rfl
  rw [hpfx, hdec]
  simp only [if_neg (by omega : ¬ ((0 : Nat) > 0))]

/-- One encoded header block of `encodeHeaders` is consumed by one decoder
iteration, producing exactly the original pair (lowercase ASCII name, ASCII
value); the dynamic table changes but is never consulted. -/
theorem decodeGo_encodePairIdx (n v : String) (hln : jsToLower n = n)
    (hna : asciiStr n = true) (hva : asciiStr v = true)
    (tail : List Nat) (f : Nat) (hdrs dyn : List (String × String)) :
    ∃ dyn', decodeHeadersGo (f + 1) (encodePairIdx (n, v) ++ tail) hdrs dyn =
      decodeHeadersGo f tail (mapSet hdrs n v) dyn' := by
  unfold encodePairIdx
  simp only
  by_cases hex : HpackEncoder.findStaticTableExactIndex n v > 0
  · rw [if_pos hex]
    obtain ⟨h1, h2, hget⟩ := findStaticTableExactIndex_get n v hex
    rw [hln] at hget
    have henc : HpackEncoder.encodeInteger
        (HpackEncoder.findStaticTableExactIndex n v) 7 0x80 =
        [128 + HpackEncoder.findStaticTableExactIndex n v] := by
      unfold HpackEncoder.encodeInteger
      rw [show ((1 <<< 7 : Nat) - 1) = 127 from by decide]
      rw [if_pos (by omega)]
      rw [lor128Add _ (by omega)]
    rw [henc]
    refine ⟨dyn, ?_⟩
    rw [show ([128 + HpackEncoder.findStaticTableExactIndex n v] ++ tail) =
      (128 + HpackEncoder.findStaticTableExactIndex n v) :: tail from rfl]
    rw [decodeGo_indexed _ h1 h2 tail f hdrs dyn]
    rw [getTableEntry_static _ dyn h1 h2, hget]
  · rw [if_neg hex]
    by_cases hni : HpackEncoder.findStaticTableIndex n > 0
    · rw [if_pos hni]
      obtain ⟨h1, h2, w, hget⟩ := findStaticTableIndex_get n hni
      rw [hln] at hget
      have henc : HpackEncoder.encodeInteger
          (HpackEncoder.findStaticTableIndex n) 6 0x40 =
          [64 + HpackEncoder.findStaticTableIndex n] := by
        unfold HpackEncoder.encodeInteger
        rw [show ((1 <<< 6 : Nat) - 1) = 63 from by decide]
        rw [if_pos (by omega)]
        rw [lor64Add _ (by omega)]
      rw [henc]
      refine ⟨(n, v) :: dyn, ?_⟩
      rw [show (([64 + HpackEncoder.findStaticTableIndex n] ++
          HpackEncoder.encodeString v) ++ tail) =
        (64 + HpackEncoder.findStaticTableIndex n) ::
          (HpackEncoder.encodeString v ++ tail) from by simp]
      rw [decodeGo_litIncr_nameIdx _ h1 h2 (HpackEncoder.encodeString v ++ tail)
        f hdrs dyn]
      rw [getTableEntry_static _ dyn h1 h2, hget]
      rw [decodeString_encodeString v tail hva]
    · rw [if_neg hni]
      refine ⟨(n, v) :: dyn, ?_⟩
      rw [show ((0x40 :: (HpackEncoder.encodeString n ++
          HpackEncoder.encodeString v)) ++ tail) =
        (64 : Nat) :: (HpackEncoder.encodeString n ++
          (HpackEncoder.encodeString v ++ tail)) from by simp]
      rw [decodeGo_litIncr_newName (HpackEncoder.encodeString n ++
        (HpackEncoder.encodeString v ++ tail)) f hdrs dyn]
      rw [decodeString_encodeString n (HpackEncoder.encodeString v ++ tail) hna]
      simp only
      rw [decodeString_encodeString v tail hva]

/-- One encoded header block of `encodeHeadersLiteral` is consumed by one
decoder iteration when the name's static index is below 15 (index 15 breaks
the 4-bit prefix, indices 16..61 land in the wrong dispatch branch). -/
theorem decodeGo_encodePairLit (n v : String) (hln : jsToLower n = n)
    (hna : asciiStr n = true) (hva : asciiStr v = true)
    (hlt : HpackEncoder.findStaticTableIndex n < 15)
    (tail : List Nat) (f : Nat) (hdrs dyn : List (String × String)) :
    decodeHeadersGo (f + 1) (encodePairLit (n, v) ++ tail) hdrs dyn =
      decodeHeadersGo f tail (mapSet hdrs n v) dyn := by
  unfold encodePairLit
  simp only
  by_cases hni : HpackEncoder.findStaticTableIndex n > 0
  · rw [if_pos hni]
    obtain ⟨h1, h2, w, hget⟩ := findStaticTableIndex_get n hni
    rw [hln] at hget
    rw [show ((0x00 : Nat) ||| HpackEncoder.findStaticTableIndex n) =
      HpackEncoder.findStaticTableIndex n from Nat.zero_or _]
    rw [show ((HpackEncoder.findStaticTableIndex n ::
        HpackEncoder.encodeString v) ++ tail) =
      HpackEncoder.findStaticTableIndex n ::
        (HpackEncoder.encodeString v ++ tail) from by simp]
    rw [decodeGo_litNoIdx_nameIdx _ h1 (by omega)
      (HpackEncoder.encodeString v ++ tail) f hdrs dyn]
    rw [getTableEntry_static _ dyn h1 h2, hget]
    rw [decodeString_encodeString v tail hva]
  · rw [if_neg hni]
    rw [show ((0x00 :: (HpackEncoder.encodeString n ++
        HpackEncoder.encodeString v)) ++ tail) =
      (0 : Nat) :: (HpackEncoder.encodeString n ++
        (HpackEncoder.encodeString v ++ tail)) from by simp]
    rw [decodeGo_litNoIdx_newName (HpackEncoder.encodeString n ++
      (HpackEncoder.encodeString v ++ tail)) f hdrs dyn]
    rw [decodeString_encodeString n (HpackEncoder.encodeString v ++ tail) hna]
    simp only
    rw [decodeString_encodeString v tail hva]

/-- The decoder loop on an exhausted buffer returns the accumulated map. -/
theorem decodeGo_nil (f : Nat) (hdrs dyn : List (String × String)) :
    decodeHeadersGo f [] hdrs dyn = hdrs := by
  cases f <;> rfl

/-- Decoding the concatenation of `encodeHeaders` blocks folds `mapSet` over
the pairs (any sufficient fuel, any initial dynamic table). -/
theorem decodeGo_encodeHeaders_fold :
    ∀ (hs : List (String × String)),
      (∀ p ∈ hs, jsToLower p.1 = p.1 ∧ asciiStr p.1 = true ∧ asciiStr p.2 = true) →
      ∀ f, hs.length ≤ f → ∀ hdrs dyn,
        decodeHeadersGo f ((hs.map encodePairIdx).flatten) hdrs dyn =
          hs.foldl (fun m p => mapSet m p.1 p.2) hdrs := by
  intro hs
  induction hs with
  | nil =>
    intro _ f _ hdrs dyn
    simpa using decodeGo_nil f hdrs dyn
  | cons p t ih =>
    intro hcond f hf hdrs dyn
    obtain ⟨n, v⟩ := p
    obtain ⟨c1, c2, c3⟩ := hcond (n, v) (by simp)
    cases f with
    | zero => simp at hf
    | succ f' =>
      simp only [List.map_cons, List.flatten_cons]
      obtain ⟨dyn', hstep⟩ := decodeGo_encodePairIdx n v c1 c2 c3
        ((t.map encodePairIdx).flatten) f' hdrs dyn
      rw [hstep]
      rw [ih (fun q hq => hcond q (by simp [hq])) f'
        (by simp only [List.length_cons] at hf; omega) (mapSet hdrs n v) dyn']
      simp

/-- Same fold for the literal-without-indexing encoding under the
static-index bound. -/
theorem decodeGo_encodeHeadersLit_fold :
    ∀ (hs : List (String × String)),
      (∀ p ∈ hs, jsToLower p.1 = p.1 ∧ asciiStr p.1 = true ∧ asciiStr p.2 = true ∧
        HpackEncoder.findStaticTableIndex p.1 < 15) →
      ∀ f, hs.length ≤ f → ∀ hdrs dyn,
        decodeHeadersGo f ((hs.map encodePairLit).flatten) hdrs dyn =
          hs.foldl (fun m p => mapSet m p.1 p.2) hdrs := by
  intro hs
  induction hs with
  | nil =>
    intro _ f _ hdrs dyn
    simpa using decodeGo_nil f hdrs dyn
  | cons p t ih =>
    intro hcond f hf hdrs dyn
    obtain ⟨n, v⟩ := p
    obtain ⟨c1, c2, c3, c4⟩ := hcond (n, v) (by simp)
    cases f with
    | zero => simp at hf
    | succ f' =>
      simp only [List.map_cons, List.flatten_cons]
      rw [decodeGo_encodePairLit n v c1 c2 c3 c4
        ((t.map encodePairLit).flatten) f' hdrs dyn]
      rw [ih (fun q hq => hcond q (by simp [hq])) f'
        (by simp only [List.length_cons] at hf; omega) (mapSet hdrs n v) dyn]
      simp

/-- `mapGet` over an append tries the left map first. -/
theorem mapGet_append {K V : Type} [DecidableEq K] :
    ∀ (a b : List (K × V)) (k : K),
      mapGet (a ++ b) k =
        match mapGet a k with
        | some v => some v
        | none => mapGet b k := by
  intro a
  induction a with
  | nil => intro b k; rfl
  | cons e t ih =>
    intro b k
    obtain ⟨k', v'⟩ := e
    by_cases hk : k' = k
    · simp [mapGet, hk]
    · simp [mapGet, hk, ih]

/-- Setting a fresh key appends the pair. -/
theorem mapSet_fresh {K V : Type} [DecidableEq K] :
    ∀ (m : List (K × V)) (k : K) (v : V), mapGet m k = none →
      mapSet m k v = m ++ [(k, v)] := by
  intro m
  induction m with
  | nil => intro k v _; rfl
  | cons e t ih =>
    intro k v h
    obtain ⟨k', v'⟩ := e
    by_cases hk : k' = k
    · simp [mapGet, hk] at h
    · simp only [mapGet, if_neg hk] at h
      simp [mapSet, hk, ih k v h]

/-- Folding `mapSet` over pairs with distinct keys, all fresh for the
accumulator, appends them in order. -/
theorem foldl_mapSet_eq_append {K V : Type} [DecidableEq K] :
    ∀ (hs : List (K × V)) (acc : List (K × V)),
      (hs.map Prod.fst).Nodup → (∀ p ∈ hs, mapGet acc p.1 = none) →
      hs.foldl (fun m p => mapSet m p.1 p.2) acc = acc ++ hs := by
  intro hs
  induction hs with
  | nil => intro acc _ _; simp
  | cons p t ih =>
    intro acc hnd hfresh
    simp only [List.map_cons, List.nodup_cons] at hnd
    simp only [List.foldl_cons]
    rw [mapSet_fresh acc p.1 p.2 (hfresh p (by simp))]
    rw [ih (acc ++ [(p.1, p.2)]) hnd.2 ?_]
    · simp
    · intro q hq
      rw [mapGet_append]
      rw [hfresh q (by simp [hq])]
      have hne : p.1 ≠ q.1 := by
        intro he
        exact hnd.1 (he ▸ List.mem_map_of_mem Prod.fst hq)
      simp [mapGet, fun hh : p.1 = q.1 => hne hh]

/-- Every encoded block is nonempty, so the buffer is at least as long as
the header list (fuel adequacy). -/
theorem length_le_flatten_of_nonempty :
    ∀ (ls : List (List Nat)), (∀ l ∈ ls, 0 < l.length) →
      ls.length ≤ ls.flatten.length := by
  intro ls
  induction ls with
  | nil => intro _; simp
  | cons l t ih =>
    intro h
    simp only [List.length_cons, List.flatten_cons, List.length_append]
    have h1 : 0 < l.length := h l (by simp)
    have h2 := ih (fun x hx => h x (by simp [hx]))
    omega

/-- `encodeInteger` always emits at least one octet. -/
theorem encodeInteger_ne_nil (a b c : Nat) :
    0 < (HpackEncoder.encodeInteger a b c).length := by
  unfold HpackEncoder.encodeInteger
  simp only
  split <;> simp

/-- `encodePairIdx` blocks are nonempty. -/
theorem encodePairIdx_pos (p : String × String) : 0 < (encodePairIdx p).length := by
  unfold encodePairIdx
  simp only
  split
  · exact encodeInteger_ne_nil _ _ _
  · split <;> simp [encodeInteger_ne_nil]

/-- `encodePairLit` blocks are nonempty. -/
theorem encodePairLit_pos (p : String × String) : 0 < (encodePairLit p).length := by
  unfold encodePairLit
  simp only
  split <;> simp

/-- C2 counterexample: the pair `("host", "x")` has distinct ASCII names and
values, yet the literal-without-indexing encoder emits `0x00 | 38` as a
single byte (static index of `host`), which the decoder misreads as a
dynamic-table-size update, losing the header entirely: the round-trip
returns `[(":authority", "")]`. -/
theorem c2_literal_host_counterexample :
    HpackEncoder.encodeHeadersLiteral [(("host"), ("x"))] = [38, 1, 120] ∧
    HpackDecoder.decodeHeaders
        (HpackEncoder.encodeHeadersLiteral [(("host"), ("x"))]) =
      [((":authority"), (""))] ∧
    HpackDecoder.decodeHeaders
        (HpackEncoder.encodeHeadersLiteral [(("host"), ("x"))]) ≠
      [(("host"), ("x"))] := by
  refine ⟨by decide, by decide, by decide⟩

/-- C2 (amended): for every ordered list of header pairs with distinct
lowercase ASCII names and ASCII values, decoding the bytes produced by
`encodeHeaders` (incremental-indexing mode) yields the same ordered list;
the same holds for `encodeHeadersLiteral` when additionally every name's
static-table index is below 15 (for larger indices the literal encoder's
single-byte `0x00 | index` is misparsed); and encoding the single pair
`(":method", "GET")` in the indexed mode yields the single byte `0x82`,
which decodes back to the same pair. -/
theorem c2_hpack_roundtrip (hs : List (String × String))
    (hnd : (hs.map Prod.fst).Nodup)
    (hcond : ∀ p ∈ hs, jsToLower p.1 = p.1 ∧ asciiStr p.1 = true ∧
      asciiStr p.2 = true) :
    HpackDecoder.decodeHeaders (HpackEncoder.encodeHeaders hs) = hs ∧
    ((∀ p ∈ hs, HpackEncoder.findStaticTableIndex p.1 < 15) →
      HpackDecoder.decodeHeaders (HpackEncoder.encodeHeadersLiteral hs) = hs) ∧
    HpackEncoder.encodeHeaders [((":method"), ("GET"))] = [0x82] ∧
    HpackDecoder.decodeHeaders [0x82] = [((":method"), ("GET"))] := by
  refine ⟨?_, ?_, by decide, by decide⟩
  · unfold HpackDecoder.decodeHeaders HpackEncoder.encodeHeaders
    have hfuel : hs.length ≤ ((hs.map encodePairIdx).flatten).length := by
      have h := length_le_flatten_of_nonempty (hs.map encodePairIdx) (by
        intro l hl
        obtain ⟨p, _, hp⟩ := List.mem_map.mp hl
        rw [← hp]
        exact encodePairIdx_pos p)
      simpa using h
    rw [decodeGo_encodeHeaders_fold hs hcond _ hfuel [] []]
    rw [foldl_mapSet_eq_append hs [] hnd (fun p _ => rfl)]
    simp
  · intro hlt
    unfold HpackDecoder.decodeHeaders HpackEncoder.encodeHeadersLiteral
    have hfuel : hs.length ≤ ((hs.map encodePairLit).flatten).length := by
      have h := length_le_flatten_of_nonempty (hs.map encodePairLit) (by
        intro l hl
        obtain ⟨p, _, hp⟩ := List.mem_map.mp hl
        rw [← hp]
        exact encodePairLit_pos p)
      simpa using h
    rw [decodeGo_encodeHeadersLit_fold hs
      (fun p hp => ⟨(hcond p hp).1, (hcond p hp).2.1, (hcond p hp).2.2, hlt p hp⟩) _
      hfuel [] []]
    rw [foldl_mapSet_eq_append hs [] hnd (fun p _ => rfl)]
    simp

/-- Witness for C2 on a three-header list exercising all three
incremental-mode encoder paths (exact match, static name, new name) and, for
the literal mode, the in-range static indices. -/
theorem c2_hpack_roundtrip_witness :
    HpackDecoder.decodeHeaders (HpackEncoder.encodeHeaders
        [((":method"), ("GET")), (("content-type"), ("text/plain")),
          (("x-custom"), ("abc"))]) =
      [((":method"), ("GET")), (("content-type"), ("text/plain")),
        (("x-custom"), ("abc"))] ∧
    HpackDecoder.decodeHeaders (HpackEncoder.encodeHeadersLiteral
        [((":method"), ("GET")), (("zz-new"), ("yy"))]) =
      [((":method"), ("GET")), (("zz-new"), ("yy"))] :=
  ⟨(c2_hpack_roundtrip
      [((":method"), ("GET")), (("content-type"), ("text/plain")),
        (("x-custom"), ("abc"))] (by decide) (by decide)).1,
    ((c2_hpack_roundtrip [((":method"), ("GET")), (("zz-new"), ("yy"))]
      (by decide) (by decide)).2.1 (by decide))⟩

/-! ## HTTP/1.x response parsing (`src/src/response.ts`, `ResponseParser.parse`)

Strings are modeled as `List Char` (the sources operate on UTF-8 decoded
JS strings; the scope here is byte-per-char data).  The header/body
separator search, the JS `split(/\r?\n/)`, the status-line regex
`^HTTP\/(\d+\.?\d*)\s+(\d+)\s*(.*)?$/i` (hand-compiled; its alternation-free
shape over the disjoint classes `\d`, `\s`, `.` makes greedy matching
deterministic: after the status digits, greedy `\s*` then `(.*)?$` succeeds
iff the suffix following the maximal whitespace run contains no line
terminator, which `.` cannot match and `$` cannot absorb), and the
duplicate-aware header multimap are each translated clause by clause. -/

def CRLF2 : List Char := ['\r', '\n', '\r', '\n']

def LF2 : List Char := ['\n', '\n']

/-- `headerSection.split(/\r?\n/)`: the regex consumes `\r\n` or a bare
`\n`; a `\r` not followed by `\n` is ordinary content. -/
def splitLinesGo (acc : List Char) : List Char → List (List Char)
  | [] => [acc.reverse]
  | '\r' :: '\n' :: t => acc.reverse :: splitLinesGo [] t
  | '\n' :: t => acc.reverse :: splitLinesGo [] t
  | c :: t => splitLinesGo (c :: acc) t

def splitLinesJs (l : List Char) : List (List Char) := splitLinesGo [] l

/-- `parseInt` on a nonempty string of decimal digits. -/
def natOfDigits (l : List Char) : Nat :=
  l.foldl (fun n c => n * 10 + (c.toNat - 48)) 0

/-- `statusLine.match(/^HTTP\/(\d+\.?\d*)\s+(\d+)\s*(.*)?$/i)`, returning
`(httpVersion, statusCode, statusMessage)` on success. -/
def statusLineMatch (line : List Char) : Option (List Char × Nat × List Char) :=
  if (line.take 5).map Char.toLower = "http/".data then
    let r0 := line.drop 5
    let d1 := r0.takeWhile Char.isDigit
    if d1 = [] then none else
    let r1 := r0.drop d1.length
    let vd : List Char × List Char :=
      match r1 with
      | '.' :: t => ('.' :: t.takeWhile Char.isDigit, t.drop (t.takeWhile Char.isDigit).length)
      | _ => ([], r1)
    let ws1 := vd.2.takeWhile jsWsChar
    if ws1 = [] then none else
    let r2 := vd.2.drop ws1.length
    let d2 := r2.takeWhile Char.isDigit
    if d2 = [] then none else
    let r3 := r2.drop d2.length
    let msg := r3.dropWhile jsWsChar
    if msg.any (fun c => c == '\r' || c == '\n') then none
    else some (d1 ++ vd.1, natOfDigits d2, msg)
  else none

/-- `headers.get(name)` followed by `existing.push(value)` or
`headers.set(name, [value])`: append to the existing slot in place,
otherwise append a fresh singleton slot at the end. -/
def multiAdd (m : List (List Char × List (List Char))) (k v : List Char) :
    List (List Char × List (List Char)) :=
  match mapGet m k with
  | some vs => mapSet m k (vs ++ [v])
  | none => m ++ [(k, [v])]

/-- One iteration of the header loop: skip falsy lines, require the first
`:` at an index `> 0`, then `name.trim().toLowerCase()` / `value.trim()`. -/
def parseHeaderLine (m : List (List Char × List (List Char))) (line : List Char) :
    List (List Char × List (List Char)) :=
  if line = [] then m
  else
    match idxOf [':'] line 0 with
    | some ci =>
      if 0 < ci then
        multiAdd m ((trimL (line.take ci)).map Char.toLower) (trimL (line.drop (ci + 1)))
      else m
    | none => m

/-- The shared separator search: `indexOf("\r\n\r\n")` with separator
length 4, else `indexOf("\n\n")` with separator length 2. -/
def sepOf (rem : List Char) : Option (Nat × Nat) :=
  match idxOf CRLF2 rem 0 with
  | some p => some (p, 4)
  | none =>
    match idxOf LF2 rem 0 with
    | some p => some (p, 2)
    | none => none

/-- `(headerEndIndex, separatorLength)`, with the whole input treated as
headers when no separator exists. -/
def headerEndOf (raw : List Char) : Nat × Nat :=
  match sepOf raw with
  | some ps => ps
  | none => (raw.length, 0)

def headerSectionOf (raw : List Char) : List Char := raw.take (headerEndOf raw).1

def bodyOf (raw : List Char) : List Char :=
  raw.drop ((headerEndOf raw).1 + (headerEndOf raw).2)

def linesOf (raw : List Char) : List (List Char) := splitLinesJs (headerSectionOf raw)

/-- `lines[0] || ""`. -/
def statusLineOf (raw : List Char) : List Char := (linesOf raw).headD []

/-- The parsed-response record (`RawResponse` of `src/src/types.ts`; the
`rawBuffer`/`bodyBuffer` fields coincide with `raw`/`body` in this model,
and the unreachable catch-all `Parse error:` branch is not modeled since
no modeled operation throws). -/
structure RawResponse where
  raw : List Char
  statusCode : Nat
  statusMessage : List Char
  httpVersion : List Char
  headers : List (List Char × List (List Char))
  body : List Char
  parseError : Option (List Char)
deriving DecidableEq, Repr

def ResponseParser.parse (raw : List Char) : RawResponse :=
  match statusLineMatch (statusLineOf raw) with
  | some r =>
    { raw := raw, statusCode := r.2.1, statusMessage := r.2.2, httpVersion := r.1,
      headers := ((linesOf raw).drop 1).foldl parseHeaderLine [],
      body := bodyOf raw, parseError := none }
  | none =>
    { raw := raw, statusCode := 0, statusMessage := [], httpVersion := [],
      headers := ((linesOf raw).drop 1).foldl parseHeaderLine [],
      body := bodyOf raw,
      parseError := some ("Invalid status line: ".data ++ statusLineOf raw) }

/-- C5: whenever the first header-section line fails the status-line regex,
the parser records `parse_error = "Invalid status line: <line>"`, leaves
`statusCode = 0` (and the message/version empty), still folds every
subsequent line through the lowercase-name ordered header multimap, and
preserves the raw input and the body after the header separator. -/
theorem c5_malformed_status_line (raw : List Char)
    (h : statusLineMatch (statusLineOf raw) = none) :
    (ResponseParser.parse raw).parseError =
        some ("Invalid status line: ".data ++ statusLineOf raw) ∧
    (ResponseParser.parse raw).statusCode = 0 ∧
    (ResponseParser.parse raw).statusMessage = [] ∧
    (ResponseParser.parse raw).httpVersion = [] ∧
    (ResponseParser.parse raw).headers =
        ((linesOf raw).drop 1).foldl parseHeaderLine [] ∧
    (ResponseParser.parse raw).raw = raw ∧
    (ResponseParser.parse raw).body = bodyOf raw := by
  simp [ResponseParser.parse, h]

/-- C5 witness: on `"not a valid http response"` the status line is the
whole input and fails the regex, so `parse_error` is populated and
`statusCode = 0`; on a malformed status line followed by duplicate header
lines and a body, the headers and body still come through. -/
theorem c5_malformed_status_line_witness :
    statusLineMatch (statusLineOf ("not a valid http response").data) = none ∧
    (ResponseParser.parse ("not a valid http response").data).parseError =
      some ("Invalid status line: not a valid http response").data ∧
    (ResponseParser.parse ("not a valid http response").data).statusCode = 0 ∧
    (ResponseParser.parse ("bad status\r\nX-Test: a\r\nX-Test: b\r\n\r\nBODY").data).parseError =
      some ("Invalid status line: bad status").data ∧
    (ResponseParser.parse ("bad status\r\nX-Test: a\r\nX-Test: b\r\n\r\nBODY").data).headers =
      [("x-test".data, ["a".data, "b".data])] ∧
    (ResponseParser.parse ("bad status\r\nX-Test: a\r\nX-Test: b\r\n\r\nBODY").data).body =
      ("BODY").data := by
  have h1 := c5_malformed_status_line ("not a valid http response").data (by decide)
  have h2 := c5_malformed_status_line
    ("bad status\r\nX-Test: a\r\nX-Test: b\r\n\r\nBODY").data (by decide)
  exact ⟨by decide, h1.1.trans (by decide), h1.2.1,
    h2.1.trans (by decide), h2.2.2.2.2.1.trans (by decide),
    h2.2.2.2.2.2.2.trans (by decide)⟩

/-! ## Pipelined response splitting (`src/src/client.ts`, `parseMultipleResponses`)

The splitter repeatedly finds the header/body separator, reads
`content-length` or `transfer-encoding: chunked` out of the header section
with the regexes `/content-length:\s*(\d+)/i` and
`/transfer-encoding:\s*chunked/i` (hand-compiled leftmost-match scans;
determinism again follows from the disjointness of `\s` and `\d`), cuts
the response at the computed body end, and recurses on the remainder,
up to `expectedResponses` times while input remains; with no separator the
whole remainder becomes the final response.  First a characterization of
`idxOf` and transfer lemmas between a list and its extension on the right.
-/

theorem take_append_of_le {α : Type} (r rest : List α) (p : Nat) (h : p ≤ r.length) :
    (r ++ rest).take p = r.take p := by
  conv_lhs => rw [← List.take_append_drop p r, List.append_assoc]
  exact List.take_left' (by rw [List.length_take]; omega)

theorem drop_append_of_le {α : Type} (r rest : List α) (p : Nat) (h : p ≤ r.length) :
    (r ++ rest).drop p = r.drop p ++ rest := by
  conv_lhs => rw [← List.take_append_drop p r, List.append_assoc]
  exact List.drop_left' (by rw [List.length_take]; omega)

theorem isPrefixOf_nil_false {α : Type} [DecidableEq α] (pat : List α)
    (hpat : pat ≠ []) : pat.isPrefixOf ([] : List α) = false := by
  cases pat with
  | nil => exact absurd rfl hpat
  | cons a t => rfl

theorem occurrence_le_length {α : Type} [DecidableEq α] (pat s : List α) (j : Nat)
    (hpat : pat ≠ []) (h : pat.isPrefixOf (s.drop j) = true) :
    j + pat.length ≤ s.length := by
  have hl := (List.isPrefixOf_iff_prefix.mp h).length_le
  rw [List.length_drop] at hl
  rcases le_or_lt j s.length with hj | hj
  · omega
  · exfalso
    exact hpat (List.length_eq_zero.mp (by omega))

theorem isPrefixOf_drop_append {α : Type} [DecidableEq α] (pat r rest : List α) (k : Nat)
    (hpat : pat ≠ []) (h : pat.isPrefixOf (r.drop k) = true) :
    pat.isPrefixOf ((r ++ rest).drop k) = true := by
  have hk : k ≤ r.length := by
    by_contra hk
    push_neg at hk
    rw [List.drop_eq_nil_of_le (Nat.le_of_lt hk), isPrefixOf_nil_false pat hpat] at h
    cases h
  rw [List.isPrefixOf_iff_prefix] at h ⊢
  rw [drop_append_of_le r rest k hk]
  exact h.trans (List.prefix_append _ _)

theorem isPrefixOf_append_drop {α : Type} [DecidableEq α] (pat r rest : List α) (k : Nat)
    (hlen : k + pat.length ≤ r.length)
    (h : pat.isPrefixOf ((r ++ rest).drop k) = true) :
    pat.isPrefixOf (r.drop k) = true := by
  rw [List.isPrefixOf_iff_prefix] at h ⊢
  rw [drop_append_of_le r rest k (by omega)] at h
  exact List.prefix_of_prefix_length_le h (List.prefix_append _ _)
    (by rw [List.length_drop]; omega)

theorem idxOfGo_some_spec {α : Type} [DecidableEq α] (pat s : List α) :
    ∀ f i j, idxOfGo pat s i f = some j →
      i ≤ j ∧ pat.isPrefixOf (s.drop j) = true ∧
      ∀ k, i ≤ k → k < j → pat.isPrefixOf (s.drop k) = false := by
  intro f
  induction f with
  | zero => intro i j h; simp [idxOfGo] at h
  | succ f ih =>
    intro i j h
    rw [idxOfGo] at h
    by_cases hp : pat.isPrefixOf (s.drop i) = true
    · rw [if_pos hp] at h
      cases h
      exact ⟨Nat.le_refl _, hp, fun k hk1 hk2 => absurd (Nat.lt_of_le_of_lt hk1 hk2)
        (Nat.lt_irrefl _)⟩
    · rw [if_neg hp] at h
      obtain ⟨h1, h2, h3⟩ := ih (i + 1) j h
      refine ⟨by omega, h2, fun k hk1 hk2 => ?_⟩
      rcases Nat.eq_or_lt_of_le hk1 with heq | hlt
      · rw [← heq]
        revert hp; cases pat.isPrefixOf (s.drop i) <;> simp
      · exact h3 k (by omega) hk2

theorem idxOfGo_complete {α : Type} [DecidableEq α] (pat s : List α) :
    ∀ f i j, i ≤ j → j + 1 ≤ i + f →
      pat.isPrefixOf (s.drop j) = true →
      (∀ k, i ≤ k → k < j → pat.isPrefixOf (s.drop k) = false) →
      idxOfGo pat s i f = some j := by
  intro f
  induction f with
  | zero => intro i j h1 h2 h3 h4; omega
  | succ f ih =>
    intro i j h1 h2 h3 h4
    rw [idxOfGo]
    by_cases hp : pat.isPrefixOf (s.drop i) = true
    · rw [if_pos hp]
      have hij : i = j := by
        by_contra hne
        rw [h4 i (Nat.le_refl _) (Nat.lt_of_le_of_ne h1 hne)] at hp
        cases hp
      rw [hij]
    · rw [if_neg hp]
      have hij : i < j := Nat.lt_of_le_of_ne h1 (fun he => hp (he ▸ h3))
      exact ih (i + 1) j (by omega) (by omega) h3 (fun k hk1 hk2 => h4 k (by omega) hk2)

theorem idxOfGo_none_spec {α : Type} [DecidableEq α] (pat s : List α) :
    ∀ f i, idxOfGo pat s i f = none →
      ∀ k, i ≤ k → k < i + f → pat.isPrefixOf (s.drop k) = false := by
  intro f
  induction f with
  | zero => intro i h k hk1 hk2; omega
  | succ f ih =>
    intro i h k hk1 hk2
    rw [idxOfGo] at h
    by_cases hp : pat.isPrefixOf (s.drop i) = true
    · rw [if_pos hp] at h; cases h
    · rw [if_neg hp] at h
      rcases Nat.eq_or_lt_of_le hk1 with heq | hlt
      · rw [← heq]
        revert hp; cases pat.isPrefixOf (s.drop i) <;> simp
      · exact ih (i + 1) h k (by omega) (by omega)

theorem idxOf_eq_some {α : Type} [DecidableEq α] (pat s : List α) (start j : Nat)
    (hpat : pat ≠ []) :
    idxOf pat s start = some j ↔
      (start ≤ j ∧ pat.isPrefixOf (s.drop j) = true ∧
       ∀ k, start ≤ k → k < j → pat.isPrefixOf (s.drop k) = false) := by
  constructor
  · exact idxOfGo_some_spec pat s _ start j
  · rintro ⟨h1, h2, h3⟩
    have hlen := occurrence_le_length pat s j hpat h2
    have hpl : 1 ≤ pat.length := by
      cases pat with
      | nil => exact absurd rfl hpat
      | cons a t => simp
    exact idxOfGo_complete pat s _ start j h1 (by omega) h2 h3

theorem idxOf_eq_none {α : Type} [DecidableEq α] (pat s : List α) (start : Nat)
    (hpat : pat ≠ []) :
    idxOf pat s start = none ↔
      ∀ k, start ≤ k → pat.isPrefixOf (s.drop k) = false := by
  constructor
  · intro h k hk
    rcases Nat.lt_or_ge k (start + (s.length + 1 - start)) with hlt | hge
    · exact idxOfGo_none_spec pat s _ start h k hk hlt
    · rw [List.drop_eq_nil_of_le (by omega)]
      exact isPrefixOf_nil_false pat hpat
  · intro h
    cases hcase : idxOf pat s start with
    | none => rfl
    | some j =>
      have hs := idxOfGo_some_spec pat s _ start j hcase
      rw [h j hs.1] at hs
      exact absurd hs.2.1 (by simp)

theorem idxOf_append_left {α : Type} [DecidableEq α] (pat r rest : List α)
    (start j : Nat) (hpat : pat ≠ []) (h : idxOf pat r start = some j) :
    idxOf pat (r ++ rest) start = some j := by
  rw [idxOf_eq_some pat r start j hpat] at h
  obtain ⟨h1, h2, h3⟩ := h
  have hlen := occurrence_le_length pat r j hpat h2
  rw [idxOf_eq_some pat (r ++ rest) start j hpat]
  refine ⟨h1, isPrefixOf_drop_append pat r rest j hpat h2, fun k hk1 hk2 => ?_⟩
  have hk : k + pat.length ≤ r.length := by omega
  have hin := h3 k hk1 hk2
  by_contra hc
  have hc' : pat.isPrefixOf ((r ++ rest).drop k) = true := by
    revert hc; cases pat.isPrefixOf ((r ++ rest).drop k) <;> simp
  rw [isPrefixOf_append_drop pat r rest k hk hc'] at hin
  cases hin

def clMatchAt (s : List Char) (i : Nat) : Option Nat :=
  if ((s.drop i).take 15).map Char.toLower = "content-length:".data then
    let ds := ((s.drop (i + 15)).dropWhile jsWsChar).takeWhile Char.isDigit
    if ds = [] then none else some (natOfDigits ds)
  else none

def clMatchGo (s : List Char) : Nat → Nat → Option Nat
  | _, 0 => none
  | i, f + 1 =>
    match clMatchAt s i with
    | some n => some n
    | none => clMatchGo s (i + 1) f

def clMatch (s : List Char) : Option Nat := clMatchGo s 0 (s.length + 1)

def teMatchAt (s : List Char) (i : Nat) : Bool :=
  (((s.drop i).take 18).map Char.toLower == "transfer-encoding:".data) &&
  ((((s.drop (i + 18)).dropWhile jsWsChar).take 7).map Char.toLower == "chunked".data)

def teMatchGo (s : List Char) : Nat → Nat → Bool
  | _, 0 => false
  | i, f + 1 => teMatchAt s i || teMatchGo s (i + 1) f

def teMatch (s : List Char) : Bool := teMatchGo s 0 (s.length + 1)

def ZERO_CHUNK : List Char := ['0', '\r', '\n', '\r', '\n']

def bodyEndOf (rem : List Char) (p sepLen : Nat) : Nat :=
  match clMatch (rem.take p) with
  | some n => p + sepLen + n
  | none =>
    if teMatch (rem.take p) then
      match idxOf ZERO_CHUNK rem p with
      | some q => q + 5
      | none => rem.length
    else p + sepLen

def parseMultiGo : Nat → List Char → List RawResponse
  | 0, _ => []
  | n + 1, rem =>
    if rem = [] then []
    else
      match sepOf rem with
      | none => [ResponseParser.parse rem]
      | some (p, sepLen) =>
        ResponseParser.parse (rem.take (bodyEndOf rem p sepLen)) ::
          parseMultiGo n (rem.drop (bodyEndOf rem p sepLen))

def RawHttp.parseMultipleResponses (expectedResponses : Nat) (buffer : List Char) :
    List RawResponse :=
  parseMultiGo expectedResponses buffer

def wfResponse (r : List Char) : Bool :=
  match idxOf CRLF2 r 0 with
  | none => false
  | some p =>
    match clMatch (r.take p) with
    | some n => r.length == p + 4 + n
    | none =>
      if teMatch (r.take p) then
        match idxOf ZERO_CHUNK r p with
        | some q => r.length == q + 5
        | none => false
      else r.length == p + 4

theorem parseMultiGo_cons (r rest : List Char) (n : Nat) (hwf : wfResponse r = true) :
    parseMultiGo (n + 1) (r ++ rest) =
      ResponseParser.parse r :: parseMultiGo n rest := by
  unfold wfResponse at hwf
  cases hp : idxOf CRLF2 r 0 with
  | none =>
    simp only [hp] at hwf
    exact absurd hwf (by decide)
  | some p =>
  simp only [hp] at hwf
  have hpat : CRLF2 ≠ [] := by decide
  have hocc := (idxOf_eq_some CRLF2 r 0 p hpat).mp hp
  have hplen : p + 4 ≤ r.length := by
    have := occurrence_le_length CRLF2 r p hpat hocc.2.1
    simpa [CRLF2] using this
  have hrne : r ≠ [] := by
    intro he; rw [he] at hplen; simp at hplen
  have hne : r ++ rest ≠ [] := by
    intro hcon
    exact hrne (List.append_eq_nil.mp hcon).1
  have hidx : idxOf CRLF2 (r ++ rest) 0 = some p := idxOf_append_left _ _ _ _ _ hpat hp
  have hsep : sepOf (r ++ rest) = some (p, 4) := by
    unfold sepOf; rw [hidx]
  have htake : (r ++ rest).take p = r.take p := take_append_of_le r rest p (by omega)
  have hbody : bodyEndOf (r ++ rest) p 4 = r.length := by
    unfold bodyEndOf
    rw [htake]
    cases hcl : clMatch (r.take p) with
    | some cl =>
      simp only [hcl] at hwf ⊢
      have hlen : r.length = p + 4 + cl := by simpa using hwf
      omega
    | none =>
      simp only [hcl] at hwf ⊢
      cases hte : teMatch (r.take p) with
      | false =>
        simp [hte] at hwf ⊢
        omega
      | true =>
        simp only [hte, if_pos] at hwf ⊢
        cases hq : idxOf ZERO_CHUNK r p with
        | none =>
          simp only [hq] at hwf
          exact absurd hwf (by decide)
        | some q =>
          simp only [hq] at hwf
          have hlen : r.length = q + 5 := by simpa using hwf
          have hqpat : ZERO_CHUNK ≠ [] := by decide
          simp only [idxOf_append_left ZERO_CHUNK r rest p q hqpat hq]
          omega
  rw [parseMultiGo, if_neg hne]
  simp only [hsep]
  rw [hbody, List.take_left, List.drop_left]

theorem parseMultiGo_final (t : List Char) (n : Nat) (ht : t ≠ [])
    (h2 : idxOf CRLF2 t 0 = none) (h3 : idxOf LF2 t 0 = none) :
    parseMultiGo (n + 1) t = [ResponseParser.parse t] := by
  rw [parseMultiGo, if_neg ht]
  have hsep : sepOf t = none := by
    unfold sepOf; rw [h2, h3]
  rw [hsep]

theorem parseMultiGo_flatten (rs : List (List Char)) (k : Nat) (u : List Char)
    (hwf : ∀ r ∈ rs, wfResponse r = true) :
    parseMultiGo (rs.length + k) (rs.flatten ++ u) =
      rs.map ResponseParser.parse ++ parseMultiGo k u := by
  induction rs with
  | nil => simp
  | cons r rs ih =>
    have h1 : wfResponse r = true := hwf r (by simp)
    have h2 : ∀ x ∈ rs, wfResponse x = true := fun x hx => hwf x (by simp [hx])
    simp only [List.flatten_cons, List.length_cons, List.append_assoc, List.map_cons]
    have harith : rs.length + 1 + k = (rs.length + k) + 1 := by omega
    rw [harith, parseMultiGo_cons r (rs.flatten ++ u) (rs.length + k) h1, ih h2]
    simp

theorem parse_raw_eq (r : List Char) : (ResponseParser.parse r).raw = r := by
  unfold ResponseParser.parse
  cases statusLineMatch (statusLineOf r) <;> rfl

/-- C3: for every list of well-formed responses (each delimited by the
content-length rule, the chunked-terminator rule, or the no-body rule,
with a CRLF-CRLF header separator), the splitter applied to their
concatenation with the expected count returns exactly the per-response
parses in order, hence as many responses as inputs, whose raw bytes are
the original responses and concatenate back to the input; and with one
more expected response and a trailing separator-free fragment appended,
the fragment is parsed as the final response. -/
theorem c3_pipelined_framing (rs : List (List Char)) (t : List Char)
    (hwf : ∀ r ∈ rs, wfResponse r = true)
    (ht1 : t ≠ []) (ht2 : idxOf CRLF2 t 0 = none) (ht3 : idxOf LF2 t 0 = none) :
    RawHttp.parseMultipleResponses rs.length rs.flatten = rs.map ResponseParser.parse ∧
    (RawHttp.parseMultipleResponses rs.length rs.flatten).length = rs.length ∧
    (RawHttp.parseMultipleResponses rs.length rs.flatten).map RawResponse.raw = rs ∧
    ((RawHttp.parseMultipleResponses rs.length rs.flatten).map RawResponse.raw).flatten
      = rs.flatten ∧
    RawHttp.parseMultipleResponses (rs.length + 1) (rs.flatten ++ t) =
      rs.map ResponseParser.parse ++ [ResponseParser.parse t] := by
  have key : RawHttp.parseMultipleResponses rs.length rs.flatten
      = rs.map ResponseParser.parse := by
    unfold RawHttp.parseMultipleResponses
    have h := parseMultiGo_flatten rs 0 [] hwf
    simpa [parseMultiGo] using h
  have hraw : (RawHttp.parseMultipleResponses rs.length rs.flatten).map RawResponse.raw
      = rs := by
    rw [key, List.map_map,
      show RawResponse.raw ∘ ResponseParser.parse = id from funext parse_raw_eq,
      List.map_id]
  refine ⟨key, by rw [key]; simp, hraw, by rw [hraw], ?_⟩
  unfold RawHttp.parseMultipleResponses
  rw [parseMultiGo_flatten rs 1 t hwf, parseMultiGo_final t 0 ht1 ht2 ht3]

def c3R1 : List Char := ("HTTP/1.1 200 OK\r\nContent-Length: 5\r\n\r\nhello").data

def c3R2 : List Char :=
  ("HTTP/1.1 200 OK\r\nTransfer-Encoding: chunked\r\n\r\n5\r\nhello\r\n0\r\n\r\n").data

def c3R3 : List Char := ("HTTP/1.0 302 Found\r\nLocation: /x\r\n\r\n").data

def c3Rs : List (List Char) := [c3R1, c3R2, c3R3]

def c3T : List Char := ("HTTP/1.1 200").data

/-- C3 witness: a content-length response, a chunked response, and a
body-less response, concatenated, split back into the three parses; with
a truncated fourth fragment appended, the fragment comes back as the
final response. -/
theorem c3_pipelined_framing_witness :
    (∀ r ∈ c3Rs, wfResponse r = true) ∧
    RawHttp.parseMultipleResponses c3Rs.length c3Rs.flatten =
      c3Rs.map ResponseParser.parse ∧
    (RawHttp.parseMultipleResponses c3Rs.length c3Rs.flatten).map RawResponse.raw = c3Rs ∧
    RawHttp.parseMultipleResponses (c3Rs.length + 1) (c3Rs.flatten ++ c3T) =
      c3Rs.map ResponseParser.parse ++ [ResponseParser.parse c3T] := by
  have h := c3_pipelined_framing c3Rs c3T (by decide) (by decide) (by decide) (by decide)
  exact ⟨by decide, h.1, h.2.2.1, h.2.2.2.2⟩

/-! ## HTTP/2 response extraction (`src/unnamed/part_002`,
`Http2FrameParser.parseHeadersPayload` / `Http2FrameParser.extractResponse`)

Frame type codes: `DATA = 0x00`, `HEADERS = 0x01`; flag bits:
`PADDED = 0x08`, `PRIORITY = 0x20`. -/

/-- `parseInt(value, 10)`: leading whitespace, an optional sign, then the
longest digit prefix; `none` models `NaN`. -/
def jsParseInt10 (s : String) : Option Int :=
  let digits : List Char → Option Int := fun t =>
    let d := t.takeWhile Char.isDigit
    if d = [] then none else some (natOfDigits d : Nat)
  match s.data.dropWhile jsWsChar with
  | '-' :: t => (digits t).map (fun n => -n)
  | '+' :: t => digits t
  | t => digits t

/-- The header-payload step of `parseHeadersPayload` restricted to its
`headers` result: skip the pad-length octet when PADDED, skip the 5
priority octets when PRIORITY, cut the padding off the end, and
HPACK-decode the remaining block.  (Out-of-range `readUInt8` reads, which
throw in Node, are modeled as 0; the claims quantify over frames whose
payload accommodates the declared prefixes.) -/
def parseHeadersPayloadHeaders (frame : Http2Frame) : List (String × String) :=
  let padLength := if frame.flags &&& 8 ≠ 0 then frame.payload.getD 0 0 else 0
  let offset := (if frame.flags &&& 8 ≠ 0 then 1 else 0) +
    (if frame.flags &&& 32 ≠ 0 then 5 else 0)
  let headerBlock := (frame.payload.take (frame.payload.length - padLength)).drop offset
  HpackDecoder.decodeHeaders headerBlock

/-- `headers.get(name)` / `push` / `set` on the `Map<string, string[]>`
response header multimap. -/
def multiAddS (m : List (String × List String)) (k v : String) :
    List (String × List String) :=
  match mapGet m k with
  | some vs => mapSet m k (vs ++ [v])
  | none => m ++ [(k, [v])]

/-- One iteration of the `for (const [name, value] of headerMap)` loop:
`:status` updates the status code, other pseudo-headers are skipped,
everything else feeds the multimap. -/
def extractEntryStep (acc : Option Int × List (String × List String))
    (nv : String × String) : Option Int × List (String × List String) :=
  if nv.1 = ":status" then (jsParseInt10 nv.2, acc.2)
  else if jsStartsWith ":" nv.1 then acc
  else (acc.1, multiAddS acc.2 nv.1 nv.2)

/-- `Http2Response` (stream id, status, header multimap, body bytes, and
the retained frame list). -/
structure Http2Response where
  streamId : Nat
  statusCode : Option Int
  headers : List (String × List String)
  body : List Nat
  frames : List Http2Frame
deriving DecidableEq, Repr

/-- `Http2FrameParser.extractResponse(frames, streamId)`: filter the frames
whose stream id is the requested one **or 0**, find the first HEADERS
frame among them, fold its decoded entries into status + multimap, and
concatenate the payloads of the filtered DATA frames. -/
def Http2FrameParser.extractResponse (frames : List Http2Frame) (streamId : Nat) :
    Option Http2Response :=
  let streamFrames := frames.filter (fun f => f.streamId == streamId || f.streamId == 0)
  match streamFrames.find? (fun f => f.type == 1) with
  | none => none
  | some headersFrame =>
    let acc := (parseHeadersPayloadHeaders headersFrame).foldl extractEntryStep
      (some 200, [])
    some { streamId := streamId, statusCode := acc.1, headers := acc.2,
           body := (streamFrames.filter (fun f => f.type == 0)).flatMap
             Http2Frame.payload,
           frames := streamFrames }

/-- Status projection of a decoded entry list: the `parseInt` of the last
`:status` value, defaulting to 200. -/
def statusFromEntries (l : List (String × String)) : Option Int :=
  l.foldl (fun acc nv => if nv.1 = ":status" then jsParseInt10 nv.2 else acc) (some 200)

/-- Multimap projection of a decoded entry list: the non-pseudo entries in
order, duplicates appended. -/
def headersFromEntries (l : List (String × String)) : List (String × List String) :=
  (l.filter (fun nv => !(jsStartsWith ":" nv.1))).foldl
    (fun m nv => multiAddS m nv.1 nv.2) []

theorem extractEntryStep_fold (l : List (String × String)) :
    ∀ st m, l.foldl extractEntryStep (st, m) =
      (l.foldl (fun acc nv => if nv.1 = ":status" then jsParseInt10 nv.2 else acc) st,
       (l.filter (fun nv => !(jsStartsWith ":" nv.1))).foldl
         (fun m nv => multiAddS m nv.1 nv.2) m) := by
  induction l with
  | nil => intro st m; rfl
  | cons nv t ih =>
    intro st m
    by_cases h1 : nv.1 = ":status"
    · have hsw : jsStartsWith ":" nv.1 = true := by rw [h1]; rfl
      simp only [List.foldl_cons, List.filter_cons, extractEntryStep, if_pos h1]
      rw [if_neg (show ¬((!jsStartsWith ":" nv.1) = true) by simp [hsw])]
      exact ih _ _
    · cases hsw : jsStartsWith ":" nv.1 with
      | true =>
        simp only [List.foldl_cons, List.filter_cons, extractEntryStep, if_neg h1,
          if_pos hsw]
        rw [if_neg (show ¬((!jsStartsWith ":" nv.1) = true) by simp [hsw])]
        exact ih _ _
      | false =>
        simp only [List.foldl_cons, List.filter_cons, extractEntryStep, if_neg h1,
          if_neg (show ¬(jsStartsWith ":" nv.1 = true) by simp [hsw])]
        rw [if_pos (show (!jsStartsWith ":" nv.1) = true by simp [hsw])]
        rw [ih]
        simp only [List.foldl_cons]

theorem parseHeadersPayloadHeaders_plain (f : Http2Frame) (h8 : f.flags &&& 8 = 0)
    (h32 : f.flags &&& 32 = 0) :
    parseHeadersPayloadHeaders f = HpackDecoder.decodeHeaders f.payload := by
  unfold parseHeadersPayloadHeaders
  rw [if_neg (show ¬(f.flags &&& 8 ≠ 0) by simp [h8]),
    if_neg (show ¬(f.flags &&& 8 ≠ 0) by simp [h8]),
    if_neg (show ¬(f.flags &&& 32 ≠ 0) by simp [h32])]
  simp only [Nat.sub_zero, Nat.add_zero, List.take_length, List.drop_zero]

/-- C4 counterexample: the frame filter keeps stream-0 frames, so `1`'s
response body absorbs a stream-0 DATA payload that the claim excludes. -/
def c4Frames : List Http2Frame :=
  [{ length := 1, type := 1, flags := 4, streamId := 1, payload := [0x88] },
   { length := 1, type := 0, flags := 0, streamId := 0, payload := [88] }]

/-- C4 counterexample: extracting stream 1 from a HEADERS frame on stream 1
plus a DATA frame on stream 0 yields body `[88]` (the stream-0 payload),
whereas the concatenated payloads of the DATA frames whose stream id equals
1 form the empty body; the extractor does not restrict to the requested
stream. -/
theorem c4_stream_zero_leak :
    (Http2FrameParser.extractResponse c4Frames 1).map Http2Response.body =
      some [88] ∧
    ((c4Frames.filter (fun f => f.streamId == 1 && f.type == 0)).flatMap
      Http2Frame.payload) = [] ∧
    (Http2FrameParser.extractResponse c4Frames 1).map Http2Response.statusCode =
      some (some 200) := by
  refine ⟨?_, by decide, ?_⟩ <;> decide

/-- C4 (amended): for every frame list and stream id, extraction fails
exactly when the frames with the requested stream id **or stream id 0**
contain no HEADERS frame; on success the response keeps the requested
stream id and those filtered frames, its body is the arrival-order
concatenation of the payloads of the filtered DATA (type 0) frames (so
stream-0 DATA payloads are included, beyond the claim's "exactly stream
s"), and — when the first filtered HEADERS frame carries neither the
PADDED nor the PRIORITY flag — its header multimap collects the non-pseudo
decoded entries of that frame's payload in order and its status code is
the `parseInt` of the decoded `:status` value, defaulting to 200. -/
theorem c4_extract_response (fs : List Http2Frame) (s : Nat) :
    (Http2FrameParser.extractResponse fs s = none ↔
      (fs.filter (fun f => f.streamId == s || f.streamId == 0)).find?
          (fun f => f.type == 1) = none) ∧
    (∀ resp, Http2FrameParser.extractResponse fs s = some resp →
      resp.body = ((fs.filter (fun f => f.streamId == s || f.streamId == 0)).filter
          (fun f => f.type == 0)).flatMap Http2Frame.payload ∧
      resp.streamId = s ∧
      resp.frames = fs.filter (fun f => f.streamId == s || f.streamId == 0)) ∧
    (∀ hf resp, Http2FrameParser.extractResponse fs s = some resp →
      (fs.filter (fun f => f.streamId == s || f.streamId == 0)).find?
          (fun f => f.type == 1) = some hf →
      hf.flags &&& 8 = 0 → hf.flags &&& 32 = 0 →
      resp.headers = headersFromEntries (HpackDecoder.decodeHeaders hf.payload) ∧
      resp.statusCode = statusFromEntries (HpackDecoder.decodeHeaders hf.payload)) := by
  unfold Http2FrameParser.extractResponse
  cases hfind : (fs.filter (fun f => f.streamId == s || f.streamId == 0)).find?
      (fun f => f.type == 1) with
  | none =>
    simp only [hfind]
    refine ⟨by simp, ?_, ?_⟩
    · intro resp h; cases h
    · intro hf resp h; cases h
  | some hf0 =>
    simp only [hfind]
    refine ⟨by simp, ?_, ?_⟩
    · intro resp h
      cases h
      exact ⟨rfl, rfl, rfl⟩
    · intro hf resp h hfind2 hp8 hp32
      cases h
      injection hfind2 with hhf
      subst hhf
      rw [extractEntryStep_fold, parseHeadersPayloadHeaders_plain hf0 hp8 hp32]
      exact ⟨rfl, rfl⟩

def c4Entries : List (String × String) :=
  [(":status", "404"), ("content-type", "text/plain"), ("x-custom", "abc")]

def c4HF : Http2Frame :=
  { length := (HpackEncoder.encodeHeaders c4Entries).length, type := 1, flags := 4,
    streamId := 1, payload := HpackEncoder.encodeHeaders c4Entries }

def c4WF : List Http2Frame :=
  [c4HF,
   { length := 2, type := 0, flags := 0, streamId := 1, payload := [104, 105] },
   { length := 1, type := 0, flags := 0, streamId := 3, payload := [120] },
   { length := 1, type := 0, flags := 0, streamId := 0, payload := [33] }]

def c4Resp : Http2Response :=
  { streamId := 1, statusCode := some 404,
    headers := [("content-type", ["text/plain"]), ("x-custom", ["abc"])],
    body := [104, 105, 33],
    frames :=
      [c4HF,
       { length := 2, type := 0, flags := 0, streamId := 1, payload := [104, 105] },
       { length := 1, type := 0, flags := 0, streamId := 0, payload := [33] }] }

/-- C4 witness: a HEADERS frame on stream 1 (status 404, one standard and
one custom header), DATA frames on streams 1, 3 and 0; extraction for
stream 1 drops the stream-3 frame, decodes status/headers from the HEADERS
payload, and concatenates the stream-1 and stream-0 DATA payloads. -/
theorem c4_extract_response_witness :
    Http2FrameParser.extractResponse c4WF 1 = some c4Resp ∧
    c4Resp.body = ((c4WF.filter (fun f => f.streamId == 1 || f.streamId == 0)).filter
        (fun f => f.type == 0)).flatMap Http2Frame.payload ∧
    c4Resp.streamId = 1 ∧
    c4Resp.headers = headersFromEntries (HpackDecoder.decodeHeaders c4HF.payload) ∧
    c4Resp.statusCode = statusFromEntries (HpackDecoder.decodeHeaders c4HF.payload) := by
  have h := c4_extract_response c4WF 1
  have hsome : Http2FrameParser.extractResponse c4WF 1 = some c4Resp := by decide
  refine ⟨hsome, (h.2.1 c4Resp hsome).1, (h.2.1 c4Resp hsome).2.1, ?_, ?_⟩
  · exact (h.2.2 c4HF c4Resp hsome (by decide) (by decide) (by decide)).1
  · exact (h.2.2 c4HF c4Resp hsome (by decide) (by decide) (by decide)).2
